import Mathlib

/-!
# Vehicle plates: comparison, rendering, hashing and the two set phases

A shallow embedding of `example1.cpp`.

* A C++ `char` is modelled by its integer value (`Int`), so that the model
  does not depend on whether `char` is signed.
* A C++ `int` is modelled by its integer value; `int` arithmetic is wrapped
  into the 32-bit two's-complement range by `wrapInt`.
* `size_t` is an unsigned integer of `w` bits: a `Nat` reduced modulo `2 ^ w`.
* A `std::string` is modelled by the list of the values of its characters.
-/

namespace PlateBench

/-! ## Data model -/

/-- A `std::array<char, 3>`: three character values. -/
structure CharArray3 where
  c0 : Int
  c1 : Int
  c2 : Int
deriving DecidableEq

/-- The elements of the array in iteration order. -/
def CharArray3.toList (a : CharArray3) : List Int := [a.c0, a.c1, a.c2]

/-- The class `VehiclePlate`: its three private fields. -/
structure VehiclePlate where
  letters_ : CharArray3
  digits_ : Int
  region_ : Int
deriving DecidableEq

namespace VehiclePlate

/-- The constructor `VehiclePlate(l0, l1, digits, l2, region)`. -/
def mk5 (l0 l1 : Int) (digits : Int) (l2 : Int) (region : Int) : VehiclePlate :=
  { letters_ := ⟨l0, l1, l2⟩, digits_ := digits, region_ := region }

def GetLetters (p : VehiclePlate) : CharArray3 := p.letters_

def GetDigits (p : VehiclePlate) : Int := p.digits_

def GetRegion (p : VehiclePlate) : Int := p.region_

/-- `AsTuple()`: `tie(letters_, digits_, region_)`. -/
def AsTuple (p : VehiclePlate) : CharArray3 × Int × Int :=
  (p.letters_, p.digits_, p.region_)

end VehiclePlate

/-! ## Library comparisons used by `operator==` and `operator<` -/

/-- `std::equal(first1, last1, first2)` on character values. -/
def stdEqual : List Int → List Int → Bool
  | [], _ => true
  | _ :: _, [] => false
  | a :: as, b :: bs => if a == b then stdEqual as bs else false

/-- `std::lexicographical_compare` on character values. -/
def lexicographicalCompare : List Int → List Int → Bool
  | [], [] => false
  | [], _ :: _ => true
  | _ :: _, [] => false
  | a :: as, b :: bs =>
    if a < b then true
    else if b < a then false
    else lexicographicalCompare as bs

/-- `operator==` of `std::array<char, 3>`. -/
def arrayEq (a b : CharArray3) : Bool := stdEqual a.toList b.toList

/-- `operator<` of `std::array<char, 3>`. -/
def arrayLt (a b : CharArray3) : Bool := lexicographicalCompare a.toList b.toList

/-- `operator==` of the three-element tuple: all components are equal. -/
def tupleEq (t u : CharArray3 × Int × Int) : Bool :=
  arrayEq t.1 u.1 && (t.2.1 == u.2.1 && t.2.2 == u.2.2)

/-- `operator<` of the three-element tuple: at each component, smaller wins,
greater loses, otherwise the next component decides. -/
def tupleLt (t u : CharArray3 × Int × Int) : Bool :=
  arrayLt t.1 u.1 ||
    (!arrayLt u.1 t.1 &&
      (decide (t.2.1 < u.2.1) ||
        (!decide (u.2.1 < t.2.1) &&
          (decide (t.2.2 < u.2.2) || (!decide (u.2.2 < t.2.2) && false)))))

namespace VehiclePlate

/-- `VehiclePlate::operator==`. -/
def opEq (p other : VehiclePlate) : Bool := tupleEq p.AsTuple other.AsTuple

/-- `VehiclePlate::operator<`. -/
def opLt (p other : VehiclePlate) : Bool := tupleLt p.AsTuple other.AsTuple

end VehiclePlate

/-- The five fields of a key in comparison order, with the lexicographic order. -/
def lexKey (k : VehiclePlate) : Int ×ₗ Int ×ₗ Int ×ₗ Int ×ₗ Int :=
  toLex (k.letters_.c0, toLex (k.letters_.c1, toLex (k.letters_.c2,
    toLex (k.digits_, k.region_))))

/-! ## Machine integers -/

/-- The value of a character literal. -/
def chr (c : Char) : Int := (c.toNat : Int)

/-- Conversion of an integer value to `size_t` of `w` bits: reduction modulo `2 ^ w`. -/
def toSizeT (w : Nat) (x : Int) : Nat := (x % (2 : Int) ^ w).toNat

/-- The value of an `int` expression: 32-bit two's-complement wrap-around. -/
def wrapInt (x : Int) : Int := (x + 2 ^ 31) % 2 ^ 32 - 2 ^ 31

/-! ## `std::ostringstream` formatting -/

/-- The `adjustfield` of a stream; initially none of the three is set. -/
inductive Adjust
  | unset
  | left
  | right
  | internal
deriving DecidableEq

/-- The state of a `std::ostringstream` that `ToString` depends on. -/
structure OStringStream where
  buf : List Int := []
  fillChar : Int := chr ' '
  width : Nat := 0
  adjust : Adjust := Adjust.unset

/-- The decimal digits of a natural number, most significant first. -/
def decimalDigits (n : Nat) : List Int :=
  if _h : n < 10 then [chr '0' + (n : Int)]
  else decimalDigits (n / 10) ++ [chr '0' + ((n % 10 : Nat) : Int)]
termination_by n
decreasing_by omega

/-- The sign of an `int` as written in decimal: `-` for a negative value. -/
def signChars (n : Int) : List Int := if n < 0 then [chr '-'] else []

/-- The characters of an `int` in decimal, before padding. -/
def intChars (n : Int) : List Int := signChars n ++ decimalDigits n.natAbs

namespace OStringStream

/-- `out << setfill(c)`. -/
def setfill (out : OStringStream) (c : Int) : OStringStream := { out with fillChar := c }

/-- `out << setw(n)`. -/
def setw (out : OStringStream) (n : Nat) : OStringStream := { out with width := n }

/-- `out << right`. -/
def right (out : OStringStream) : OStringStream := { out with adjust := Adjust.right }

/-- `out << c` for a `char`: padded to the field width, which is then reset. -/
def putChar (out : OStringStream) (c : Int) : OStringStream :=
  let padding := List.replicate (out.width - 1) out.fillChar
  let field := match out.adjust with
    | Adjust.left => [c] ++ padding
    | _ => padding ++ [c]
  { out with buf := out.buf ++ field, width := 0 }

/-- `out << n` for an `int` (decimal): padded to the field width, which is then reset. -/
def putInt (out : OStringStream) (n : Int) : OStringStream :=
  let padding := List.replicate (out.width - (intChars n).length) out.fillChar
  let field := match out.adjust with
    | Adjust.left => intChars n ++ padding
    | Adjust.internal => signChars n ++ padding ++ decimalDigits n.natAbs
    | _ => padding ++ intChars n
  { out with buf := out.buf ++ field, width := 0 }

/-- `out.str()`. -/
def str (out : OStringStream) : List Int := out.buf

end OStringStream

/-- `VehiclePlate::ToString`. -/
def VehiclePlate.ToString (p : VehiclePlate) : List Int :=
  let out : OStringStream := {}
  let out := (out.putChar p.letters_.c0).putChar p.letters_.c1
  let out := (((out.setfill (chr '0')).right).setw 3).putInt p.digits_
  let out := ((out.putChar p.letters_.c2).setw 2).putInt p.region_
  out.str

/-! ## Hash strategies -/

/-- `PlateHasherTrivial::operator()`. -/
def PlateHasherTrivial (w : Nat) (plate : VehiclePlate) : Nat :=
  toSizeT w plate.GetDigits

/-- `PlateHasherRegion::operator()`: the sum is computed in `int`. -/
def PlateHasherRegion (w : Nat) (plate : VehiclePlate) : Nat :=
  toSizeT w (wrapInt (plate.GetDigits + wrapInt (plate.GetRegion * 1000)))

/-- `PlateHasherString::operator()`; `hasher` is the member `hash<string>`. -/
def PlateHasherString (hasher : List Int → Nat) (plate : VehiclePlate) : Nat :=
  hasher plate.ToString

/-- `PlateHasherAll::operator()`. -/
def PlateHasherAll (w : Nat) (plate : VehiclePlate) : Nat :=
  let hasher_all : Nat := 0
  let hasher_all := plate.GetLetters.toList.foldl
    (fun acc c => (acc * 31 + toSizeT w c) % 2 ^ w) hasher_all
  let hasher_all := (hasher_all * 31 + toSizeT w plate.GetDigits) % 2 ^ w
  let hasher_all := (hasher_all * 31 + toSizeT w plate.GetRegion) % 2 ^ w
  hasher_all

/-! ## The generator's tables and valid keys -/

/-- `PlateGenerator::possible_regions_`. -/
def possible_regions_ : List Int :=
  [1, 2, 102, 3, 4, 5, 6, 7, 8, 9, 10, 11, 12, 13, 113, 14, 15, 16, 116, 17, 18,
   19, 20, 21, 121, 22, 23, 93, 123, 24, 84, 88, 124, 25, 125, 26, 27, 28, 29, 30,
   31, 32, 33, 34, 35, 36, 136, 37, 38, 85, 39, 91, 40, 41, 82, 42, 142, 43, 44, 45,
   46, 47, 48, 49, 50, 90, 150, 190, 51, 52, 152, 53, 54, 154, 55, 56, 57, 58, 59,
   81, 159, 60, 61, 161, 62, 63, 163, 64, 164, 65, 66, 96, 67, 68, 69, 70, 71, 72,
   73, 173, 74, 174, 75, 80, 76, 77, 97, 99, 177, 199, 197, 777, 78, 98, 178, 79,
   83, 86, 87, 89, 94, 95]

/-- `PlateGenerator::possible_chars_`, the characters of `"ABCEHKMNOPTXY"`. -/
def possible_chars_ : List Int :=
  [chr 'A', chr 'B', chr 'C', chr 'E', chr 'H', chr 'K', chr 'M', chr 'N', chr 'O',
   chr 'P', chr 'T', chr 'X', chr 'Y']

/-- A valid key: letters from the alphabet, digits in `[0, 999]`, region in the allow-list. -/
def ValidPlate (p : VehiclePlate) : Prop :=
  p.letters_.c0 ∈ possible_chars_ ∧ p.letters_.c1 ∈ possible_chars_ ∧
    p.letters_.c2 ∈ possible_chars_ ∧ 0 ≤ p.digits_ ∧ p.digits_ ≤ 999 ∧
      p.region_ ∈ possible_regions_

instance (p : VehiclePlate) : Decidable (ValidPlate p) := by
  unfold ValidPlate; infer_instance

/-- The number of decimal digits of a non-negative region code, `len(str(region))`. -/
def decimalLength (r : Int) : Nat := Nat.log 10 r.toNat + 1

/-! ## `std::unordered_set<VehiclePlate, Hasher>`

The table is a single list of nodes together with a bucket count; bucket `b`
consists of the nodes whose hash code reduced modulo the bucket count is `b`.
The number of buckets after a rehash is chosen by the library; it is the
parameter `policy` (old bucket count to new bucket count). -/

structure UnorderedSet where
  nodes : List VehiclePlate
  bucket_count : Nat

namespace UnorderedSet

/-- A default-constructed container: no nodes, one bucket. -/
def empty : UnorderedSet := { nodes := [], bucket_count := 1 }

/-- The nodes of bucket `b`. -/
def bucket (hash : VehiclePlate → Nat) (s : UnorderedSet) (b : Nat) : List VehiclePlate :=
  s.nodes.filter (fun e => hash e % s.bucket_count == b)

/-- `count(plate)`: searches the bucket of `plate` for a node equal by `operator==`. -/
def count (hash : VehiclePlate → Nat) (s : UnorderedSet) (plate : VehiclePlate) : Nat :=
  if (s.bucket hash (hash plate % s.bucket_count)).any (fun e => e.opEq plate) then 1 else 0

/-- `insert(p)`: nothing happens when an equal node is in the bucket; otherwise
the table is rehashed when the load factor would exceed 1, and `p` is linked in. -/
def insert (hash : VehiclePlate → Nat) (policy : Nat → Nat) (s : UnorderedSet)
    (p : VehiclePlate) : UnorderedSet :=
  if (s.bucket hash (hash p % s.bucket_count)).any (fun e => e.opEq p) then s
  else
    { nodes := p :: s.nodes
      bucket_count :=
        if s.nodes.length + 1 > s.bucket_count then policy s.bucket_count
        else s.bucket_count }

end UnorderedSet

/-! ## `std::set<VehiclePlate>`

A binary search tree ordered by `operator<`; rebalancing does not change
the keys or their order and is left out. -/

inductive SetTree
  | nil
  | node (left : SetTree) (key : VehiclePlate) (right : SetTree)

namespace SetTree

/-- `insert(p)`: descends by `operator<`; a key equivalent to `p` blocks the insertion. -/
def insert : SetTree → VehiclePlate → SetTree
  | nil, p => node nil p nil
  | node l k r, p =>
    if p.opLt k then node (insert l p) k r
    else if k.opLt p then node l k (insert r p)
    else node l k r

/-- `count(plate)`: 1 when a key equivalent to `plate` under `operator<` is found. -/
def count : SetTree → VehiclePlate → Nat
  | nil, _ => 0
  | node l k r, plate =>
    if plate.opLt k then count l plate
    else if k.opLt plate then count r plate
    else 1

/-- The keys of a tree, in order. -/
def keys : SetTree → List VehiclePlate
  | nil => []
  | node l k r => keys l ++ k :: keys r

/-- The search-tree invariant with respect to `operator<`. -/
def Ordered : SetTree → Prop
  | nil => True
  | node l k r =>
    Ordered l ∧ Ordered r ∧ (∀ x ∈ keys l, x.opLt k = true) ∧ (∀ x ∈ keys r, k.opLt x = true)

end SetTree

/-! ## The two phases of `main` -/

/-- The first block of `main`: fill an `unordered_set` with `PlateHasherAll`,
then `count_if` over the find vector; the result is stored in `int found`. -/
def phaseUnorderedSet (w : Nat) (policy : Nat → Nat) (fill_vector find_vector : List VehiclePlate) :
    Int :=
  let container := fill_vector.foldl
    (fun c p => UnorderedSet.insert (PlateHasherAll w) policy c p) UnorderedSet.empty
  wrapInt (find_vector.countP
    (fun plate => decide (container.count (PlateHasherAll w) plate > 0)) : Nat)

/-- The second block of `main`: fill a `set`, then `count_if` over the find vector. -/
def phaseSet (fill_vector find_vector : List VehiclePlate) : Int :=
  let container := fill_vector.foldl (fun c p => SetTree.insert c p) SetTree.nil
  wrapInt (find_vector.countP (fun plate => decide (container.count plate > 0)) : Nat)

/-! ## `PlateGenerator`

The engine `mt19937 engine_` is the only state of a generator; its state has an
arbitrary type `σ`. A draw `uniform_int_distribution<short>{a, b}(engine_)` is the
parameter `draw`: from the engine state and the bounds it gives the value drawn and
the next engine state. Indexing a table out of bounds has no defined result, so the
table lookups are partial. The order in which the five arguments of the constructor
call in `Generate` are evaluated is chosen by the compiler; it is the parameter
`order`. -/

/-- `static_cast<short>`: reduction into the 16-bit two's-complement range. -/
def toShort (x : Int) : Int := (x + 2 ^ 15) % 2 ^ 16 - 2 ^ 15

/-- Unchecked indexing `table[i]`: defined only for an index within bounds. -/
def tableAt (table : List Int) (i : Int) : Option Int :=
  if 0 ≤ i then table[i.toNat]? else none

structure PlateGenerator (σ : Type) where
  engine_ : σ

namespace PlateGenerator

/-- `PlateGenerator::GenerateChar`. -/
def GenerateChar {σ : Type} (draw : σ → Int → Int → Int × σ) (g : PlateGenerator σ) :
    Option (Int × PlateGenerator σ) :=
  let r := draw g.engine_ 0 (toShort ((possible_chars_.length : Int) - 1))
  (tableAt possible_chars_ r.1).map (fun c => (c, { engine_ := r.2 }))

/-- `PlateGenerator::GenerateNumber`. -/
def GenerateNumber {σ : Type} (draw : σ → Int → Int → Int × σ) (g : PlateGenerator σ) :
    Int × PlateGenerator σ :=
  let r := draw g.engine_ 0 999
  (r.1, { engine_ := r.2 })

/-- `PlateGenerator::GenerateRegion`. -/
def GenerateRegion {σ : Type} (draw : σ → Int → Int → Int × σ) (g : PlateGenerator σ) :
    Option (Int × PlateGenerator σ) :=
  let r := draw g.engine_ 0 (toShort ((possible_regions_.length : Int) - 1))
  (tableAt possible_regions_ r.1).map (fun c => (c, { engine_ := r.2 }))

end PlateGenerator

/-- The five arguments of the constructor call in `Generate`. -/
inductive Arg
  | l0
  | l1
  | digits
  | l2
  | region
deriving DecidableEq

/-- The values of the constructor arguments evaluated so far. -/
structure Args where
  l0 : Int := 0
  l1 : Int := 0
  digits : Int := 0
  l2 : Int := 0
  region : Int := 0

/-- The left-to-right order of evaluation. -/
def leftToRight : List Arg := [Arg.l0, Arg.l1, Arg.digits, Arg.l2, Arg.region]

/-- An order of evaluation: every argument is evaluated exactly once. -/
def IsEvalOrder (order : List Arg) : Prop := order.Perm leftToRight

instance (order : List Arg) : Decidable (IsEvalOrder order) := by
  unfold IsEvalOrder; infer_instance

/-- Evaluation of one argument of the constructor call: one call of a private generator. -/
def evalArg {σ : Type} (draw : σ → Int → Int → Int × σ) (st : Args × PlateGenerator σ)
    (a : Arg) : Option (Args × PlateGenerator σ) :=
  match a with
  | Arg.l0 => (st.2.GenerateChar draw).map (fun r => ({ st.1 with l0 := r.1 }, r.2))
  | Arg.l1 => (st.2.GenerateChar draw).map (fun r => ({ st.1 with l1 := r.1 }, r.2))
  | Arg.digits =>
    some ({ st.1 with digits := (st.2.GenerateNumber draw).1 }, (st.2.GenerateNumber draw).2)
  | Arg.l2 => (st.2.GenerateChar draw).map (fun r => ({ st.1 with l2 := r.1 }, r.2))
  | Arg.region => (st.2.GenerateRegion draw).map (fun r => ({ st.1 with region := r.1 }, r.2))

/-- Evaluation of the arguments in the given order. -/
def evalArgs {σ : Type} (draw : σ → Int → Int → Int × σ) :
    List Arg → Args × PlateGenerator σ → Option (Args × PlateGenerator σ)
  | [], st => some st
  | a :: rest, st =>
    match evalArg draw st a with
    | none => none
    | some st' => evalArgs draw rest st'

/-- `PlateGenerator::Generate`: the key and the generator after the call. -/
def PlateGenerator.Generate {σ : Type} (draw : σ → Int → Int → Int × σ) (order : List Arg)
    (g : PlateGenerator σ) : Option (VehiclePlate × PlateGenerator σ) :=
  (evalArgs draw order ({}, g)).map
    (fun st => (VehiclePlate.mk5 st.1.l0 st.1.l1 st.1.digits st.1.l2 st.1.region, st.2))

/-- `generate_n(back_inserter(v), n, [&]() { return generator.Generate(); })`: the keys
appended and the generator after the `n` calls. -/
def generateN {σ : Type} (draw : σ → Int → Int → Int × σ) (order : List Arg) :
    Nat → PlateGenerator σ → Option (List VehiclePlate × PlateGenerator σ)
  | 0, g => some ([], g)
  | n + 1, g =>
    match g.Generate draw order with
    | none => none
    | some (p, g') =>
      match generateN draw order n g' with
      | none => none
      | some (ps, g'') => some (p :: ps, g'')

/-- A constructor argument has a valid value. -/
def ArgOk (a : Arg) (args : Args) : Prop :=
  match a with
  | Arg.l0 => args.l0 ∈ possible_chars_
  | Arg.l1 => args.l1 ∈ possible_chars_
  | Arg.digits => 0 ≤ args.digits ∧ args.digits ≤ 999
  | Arg.l2 => args.l2 ∈ possible_chars_
  | Arg.region => args.region ∈ possible_regions_

/-- Every draw of `uniform_int_distribution{a, b}` with `a ≤ b` lies in `[a, b]`. -/
def DrawInRange {σ : Type} (draw : σ → Int → Int → Int × σ) : Prop :=
  ∀ (e : σ) (a b : Int), a ≤ b → a ≤ (draw e a b).1 ∧ (draw e a b).1 ≤ b

/-- A draw function that steps a counter and returns it reduced into the bounds. -/
def counterDraw (e : Nat) (a b : Int) : Int × Nat :=
  (a + (e : Int) % (b - a + 1), e + 1)

/-! ## Reading decimal digits back -/

/-- The number written by a list of decimal digit characters. -/
def digitsValue (cs : List Int) : Int :=
  cs.foldl (fun acc c => acc * 10 + (c - chr '0')) 0

/-- Field-wise equality of two keys. -/
def FieldwiseEq (a b : VehiclePlate) : Prop :=
  a.letters_.c0 = b.letters_.c0 ∧ a.letters_.c1 = b.letters_.c1 ∧
    a.letters_.c2 = b.letters_.c2 ∧ a.digits_ = b.digits_ ∧ a.region_ = b.region_

instance (a b : VehiclePlate) : Decidable (FieldwiseEq a b) := by
  unfold FieldwiseEq; infer_instance

/-- The number of positions of the find list whose key is field-wise equal to at least
one key of the fill list. -/
def matchingPositions (fill_vector find_vector : List VehiclePlate) : Nat :=
  find_vector.countP (fun q => fill_vector.any (fun f => decide (FieldwiseEq f q)))

/-! ## Facts about the comparisons -/

theorem arrayEq_iff (a b : CharArray3) :
    arrayEq a b = true ↔ a.c0 = b.c0 ∧ a.c1 = b.c1 ∧ a.c2 = b.c2 := by
  simp only [arrayEq, CharArray3.toList, stdEqual]
  by_cases h0 : a.c0 = b.c0 <;> by_cases h1 : a.c1 = b.c1 <;>
    by_cases h2 : a.c2 = b.c2 <;> simp [h0, h1, h2]

theorem arrayLt_iff (a b : CharArray3) :
    arrayLt a b = true ↔
      a.c0 < b.c0 ∨ (a.c0 = b.c0 ∧ a.c1 < b.c1) ∨
        (a.c0 = b.c0 ∧ a.c1 = b.c1 ∧ a.c2 < b.c2) := by
  simp only [arrayLt, CharArray3.toList, lexicographicalCompare]
  split_ifs <;> simp <;> omega

theorem opEq_iff_fields (k1 k2 : VehiclePlate) :
    k1.opEq k2 = true ↔
      k1.letters_.c0 = k2.letters_.c0 ∧ k1.letters_.c1 = k2.letters_.c1 ∧
        k1.letters_.c2 = k2.letters_.c2 ∧ k1.digits_ = k2.digits_ ∧
          k1.region_ = k2.region_ := by
  simp only [VehiclePlate.opEq, tupleEq, VehiclePlate.AsTuple, Bool.and_eq_true,
    arrayEq_iff, beq_iff_eq]
  tauto

theorem opEq_iff_eq (k1 k2 : VehiclePlate) : k1.opEq k2 = true ↔ k1 = k2 := by
  rw [opEq_iff_fields]
  obtain ⟨⟨a0, a1, a2⟩, d1, r1⟩ := k1
  obtain ⟨⟨b0, b1, b2⟩, d2, r2⟩ := k2
  simp only [VehiclePlate.mk.injEq, CharArray3.mk.injEq]
  tauto

theorem opLt_iff_fields (k1 k2 : VehiclePlate) :
    k1.opLt k2 = true ↔
      (k1.letters_.c0 < k2.letters_.c0 ∨
        (k1.letters_.c0 = k2.letters_.c0 ∧ k1.letters_.c1 < k2.letters_.c1) ∨
        (k1.letters_.c0 = k2.letters_.c0 ∧ k1.letters_.c1 = k2.letters_.c1 ∧
          k1.letters_.c2 < k2.letters_.c2)) ∨
      ((k1.letters_.c0 = k2.letters_.c0 ∧ k1.letters_.c1 = k2.letters_.c1 ∧
          k1.letters_.c2 = k2.letters_.c2) ∧ k1.digits_ < k2.digits_) ∨
      ((k1.letters_.c0 = k2.letters_.c0 ∧ k1.letters_.c1 = k2.letters_.c1 ∧
          k1.letters_.c2 = k2.letters_.c2) ∧ k1.digits_ = k2.digits_ ∧
        k1.region_ < k2.region_) := by
  simp only [VehiclePlate.opLt, tupleLt, VehiclePlate.AsTuple, Bool.or_eq_true,
    Bool.and_eq_true, Bool.not_eq_true', arrayLt_iff, decide_eq_true_eq,
    decide_eq_false_iff_not, Bool.and_false, Bool.or_false]
  rw [← Bool.not_eq_true, arrayLt_iff]
  omega



/-! ## `operator<` is a strict total order -/

theorem opLt_iff_lexKey (k1 k2 : VehiclePlate) :
    k1.opLt k2 = true ↔ lexKey k1 < lexKey k2 := by
  rw [opLt_iff_fields]
  simp only [lexKey, Prod.Lex.lt_iff, ofLex_toLex]
  constructor
  · rintro (h | ⟨h, h'⟩ | ⟨h, h', h''⟩)
    · rcases h with h | ⟨h, h'⟩ | ⟨h, h', h''⟩
      · exact Or.inl h
      · exact Or.inr ⟨h, Or.inl h'⟩
      · exact Or.inr ⟨h, Or.inr ⟨h', Or.inl h''⟩⟩
    · exact Or.inr ⟨h.1, Or.inr ⟨h.2.1, Or.inr ⟨h.2.2, Or.inl h'⟩⟩⟩
    · exact Or.inr ⟨h.1, Or.inr ⟨h.2.1, Or.inr ⟨h.2.2, Or.inr ⟨h', h''⟩⟩⟩⟩
  · rintro (h | ⟨h0, h | ⟨h1, h | ⟨h2, h | ⟨h3, h⟩⟩⟩⟩)
    · exact Or.inl (Or.inl h)
    · exact Or.inl (Or.inr (Or.inl ⟨h0, h⟩))
    · exact Or.inl (Or.inr (Or.inr ⟨h0, h1, h⟩))
    · exact Or.inr (Or.inl ⟨⟨h0, h1, h2⟩, h⟩)
    · exact Or.inr (Or.inr ⟨⟨h0, h1, h2⟩, h3, h⟩)

theorem lexKey_injective (k1 k2 : VehiclePlate) (h : lexKey k1 = lexKey k2) : k1 = k2 := by
  obtain ⟨⟨a0, a1, a2⟩, d1, r1⟩ := k1
  obtain ⟨⟨b0, b1, b2⟩, d2, r2⟩ := k2
  simp only [lexKey, EmbeddingLike.apply_eq_iff_eq, Prod.mk.injEq] at h
  obtain ⟨h0, h1, h2, h3, h4⟩ := h
  subst h0 h1 h2 h3 h4
  rfl

theorem opLt_irrefl (k : VehiclePlate) : k.opLt k = false := by
  rw [← Bool.not_eq_true, opLt_iff_lexKey]
  exact lt_irrefl _

theorem opLt_trans (k1 k2 k3 : VehiclePlate) (h12 : k1.opLt k2 = true)
    (h23 : k2.opLt k3 = true) : k1.opLt k3 = true := by
  rw [opLt_iff_lexKey] at h12 h23 ⊢
  exact lt_trans h12 h23

theorem opLt_asymm (k1 k2 : VehiclePlate) (h : k1.opLt k2 = true) : k2.opLt k1 = false := by
  rw [← Bool.not_eq_true, opLt_iff_lexKey]
  rw [opLt_iff_lexKey] at h
  exact lt_asymm h

theorem eq_of_incomparable (k1 k2 : VehiclePlate) (h1 : k1.opLt k2 = false)
    (h2 : k2.opLt k1 = false) : k1 = k2 := by
  rw [← Bool.not_eq_true, opLt_iff_lexKey] at h1 h2
  exact lexKey_injective k1 k2 (le_antisymm (not_lt.1 h2) (not_lt.1 h1))

theorem incomparable_iff_opEq (k1 k2 : VehiclePlate) :
    (k1.opLt k2 = false ∧ k2.opLt k1 = false) ↔ k1.opEq k2 = true := by
  constructor
  · rintro ⟨h1, h2⟩
    exact (opEq_iff_eq k1 k2).2 (eq_of_incomparable k1 k2 h1 h2)
  · intro h
    have e := (opEq_iff_eq k1 k2).1 h
    subst e
    exact ⟨opLt_irrefl k1, opLt_irrefl k1⟩


/-! ## The hash table finds exactly the inserted keys -/

theorem UnorderedSet.any_bucket_iff (hash : VehiclePlate → Nat) (s : UnorderedSet)
    (p : VehiclePlate) :
    (s.bucket hash (hash p % s.bucket_count)).any (fun e => e.opEq p) = true ↔ p ∈ s.nodes := by
  simp only [UnorderedSet.bucket, List.any_eq_true, List.mem_filter, beq_iff_eq]
  constructor
  · rintro ⟨e, ⟨he, _⟩, heq⟩
    rw [opEq_iff_eq] at heq
    exact heq ▸ he
  · intro hp
    exact ⟨p, ⟨hp, rfl⟩, (opEq_iff_eq p p).2 rfl⟩

theorem UnorderedSet.count_pos_iff_mem (hash : VehiclePlate → Nat) (s : UnorderedSet)
    (p : VehiclePlate) : s.count hash p > 0 ↔ p ∈ s.nodes := by
  unfold UnorderedSet.count
  by_cases h : (s.bucket hash (hash p % s.bucket_count)).any (fun e => e.opEq p) = true
  · rw [if_pos h]
    exact ⟨fun _ => (UnorderedSet.any_bucket_iff hash s p).1 h, fun _ => Nat.one_pos⟩
  · rw [if_neg h]
    constructor
    · intro h0
      exact absurd h0 (by decide)
    · intro hp
      exact absurd ((UnorderedSet.any_bucket_iff hash s p).2 hp) h

theorem UnorderedSet.mem_insert (hash : VehiclePlate → Nat) (policy : Nat → Nat)
    (s : UnorderedSet) (p q : VehiclePlate) :
    q ∈ (s.insert hash policy p).nodes ↔ q ∈ s.nodes ∨ q = p := by
  unfold UnorderedSet.insert
  by_cases h : (s.bucket hash (hash p % s.bucket_count)).any (fun e => e.opEq p) = true
  · rw [if_pos h]
    have hp := (UnorderedSet.any_bucket_iff hash s p).1 h
    constructor
    · exact Or.inl
    · rintro (hq | rfl)
      · exact hq
      · exact hp
  · rw [if_neg h]
    simp only [List.mem_cons]
    tauto

theorem UnorderedSet.mem_foldl_insert (hash : VehiclePlate → Nat) (policy : Nat → Nat)
    (fill : List VehiclePlate) (s : UnorderedSet) (q : VehiclePlate) :
    q ∈ (fill.foldl (fun c p => UnorderedSet.insert hash policy c p) s).nodes ↔
      q ∈ s.nodes ∨ q ∈ fill := by
  induction fill generalizing s with
  | nil => simp
  | cons p ps ih =>
    rw [List.foldl_cons, ih, UnorderedSet.mem_insert, List.mem_cons]
    tauto

/-! ## The search tree finds exactly the inserted keys -/

theorem SetTree.mem_keys_insert (t : SetTree) (p q : VehiclePlate) :
    q ∈ (t.insert p).keys ↔ q ∈ t.keys ∨ q = p := by
  induction t with
  | nil => simp [SetTree.insert, SetTree.keys]
  | node l k r ihl ihr =>
    unfold SetTree.insert
    by_cases h1 : p.opLt k = true
    · rw [if_pos h1]
      simp only [SetTree.keys, List.mem_append, List.mem_cons, ihl]
      tauto
    · rw [if_neg h1]
      by_cases h2 : k.opLt p = true
      · rw [if_pos h2]
        simp only [SetTree.keys, List.mem_append, List.mem_cons, ihr]
        tauto
      · rw [if_neg h2]
        have e : p = k :=
          eq_of_incomparable p k (Bool.not_eq_true _ ▸ h1) (Bool.not_eq_true _ ▸ h2)
        subst e
        simp only [SetTree.keys, List.mem_append, List.mem_cons]
        tauto

theorem SetTree.ordered_insert (t : SetTree) (p : VehiclePlate) (ht : t.Ordered) :
    (t.insert p).Ordered := by
  induction t with
  | nil => simp [SetTree.insert, SetTree.Ordered, SetTree.keys]
  | node l k r ihl ihr =>
    obtain ⟨hl, hr, hlk, hkr⟩ := ht
    unfold SetTree.insert
    by_cases h1 : p.opLt k = true
    · rw [if_pos h1]
      refine ⟨ihl hl, hr, ?_, hkr⟩
      intro x hx
      rcases (SetTree.mem_keys_insert l p x).1 hx with hx | rfl
      · exact hlk x hx
      · exact h1
    · rw [if_neg h1]
      by_cases h2 : k.opLt p = true
      · rw [if_pos h2]
        refine ⟨hl, ihr hr, hlk, ?_⟩
        intro x hx
        rcases (SetTree.mem_keys_insert r p x).1 hx with hx | rfl
        · exact hkr x hx
        · exact h2
      · rw [if_neg h2]
        exact ⟨hl, hr, hlk, hkr⟩

theorem SetTree.count_pos_iff_mem_keys (t : SetTree) (p : VehiclePlate) (ht : t.Ordered) :
    t.count p > 0 ↔ p ∈ t.keys := by
  induction t with
  | nil => simp [SetTree.count, SetTree.keys]
  | node l k r ihl ihr =>
    obtain ⟨hl, hr, hlk, hkr⟩ := ht
    unfold SetTree.count
    simp only [SetTree.keys, List.mem_append, List.mem_cons]
    by_cases h1 : p.opLt k = true
    · rw [if_pos h1, ihl hl]
      constructor
      · exact Or.inl
      · rintro (h | rfl | h)
        · exact h
        · rw [opLt_irrefl] at h1
          exact Bool.noConfusion h1
        · have := opLt_asymm k p (hkr p h)
          rw [h1] at this
          exact Bool.noConfusion this
    · rw [if_neg h1]
      by_cases h2 : k.opLt p = true
      · rw [if_pos h2, ihr hr]
        constructor
        · exact fun h => Or.inr (Or.inr h)
        · rintro (h | rfl | h)
          · exact absurd (hlk p h) h1
          · rw [opLt_irrefl] at h2
            exact Bool.noConfusion h2
          · exact h
      · have e : p = k :=
          eq_of_incomparable p k (Bool.not_eq_true _ ▸ h1) (Bool.not_eq_true _ ▸ h2)
        subst e
        rw [if_neg h2]
        exact ⟨fun _ => Or.inr (Or.inl rfl), fun _ => Nat.one_pos⟩

theorem SetTree.foldl_insert_spec (fill : List VehiclePlate) (t : SetTree) (ht : t.Ordered) :
    (fill.foldl (fun c p => SetTree.insert c p) t).Ordered ∧
      ∀ q, q ∈ (fill.foldl (fun c p => SetTree.insert c p) t).keys ↔ q ∈ t.keys ∨ q ∈ fill := by
  induction fill generalizing t with
  | nil => simp [ht]
  | cons p ps ih =>
    obtain ⟨ho, hm⟩ := ih (t.insert p) (SetTree.ordered_insert t p ht)
    refine ⟨ho, ?_⟩
    intro q
    rw [List.foldl_cons, hm, SetTree.mem_keys_insert, List.mem_cons]
    tauto

/-! ## Both phases count the find keys that occur in the fill vector -/

theorem phaseUnorderedSet_eq (w : Nat) (policy : Nat → Nat)
    (fill_vector find_vector : List VehiclePlate) :
    phaseUnorderedSet w policy fill_vector find_vector =
      wrapInt (find_vector.countP (fun plate => decide (plate ∈ fill_vector)) : Nat) := by
  refine congrArg (fun n : Nat => wrapInt (n : Int)) (List.countP_congr ?_)
  intro x _
  simp only [decide_eq_true_eq]
  rw [UnorderedSet.count_pos_iff_mem, UnorderedSet.mem_foldl_insert]
  simp [UnorderedSet.empty]

theorem phaseSet_eq (fill_vector find_vector : List VehiclePlate) :
    phaseSet fill_vector find_vector =
      wrapInt (find_vector.countP (fun plate => decide (plate ∈ fill_vector)) : Nat) := by
  refine congrArg (fun n : Nat => wrapInt (n : Int)) (List.countP_congr ?_)
  intro x _
  simp only [decide_eq_true_eq]
  obtain ⟨ho, hm⟩ := SetTree.foldl_insert_spec fill_vector SetTree.nil trivial
  rw [SetTree.count_pos_iff_mem_keys _ _ ho, hm]
  simp [SetTree.keys]


/-! ## Decimal rendering -/

theorem decimalDigits_of_lt (n : Nat) (h : n < 10) : decimalDigits n = [chr '0' + (n : Int)] := by
  rw [decimalDigits, dif_pos h]

theorem decimalDigits_of_ge (n : Nat) (h : ¬ n < 10) :
    decimalDigits n = decimalDigits (n / 10) ++ [chr '0' + ((n % 10 : Nat) : Int)] := by
  rw [decimalDigits, dif_neg h]

theorem decimalDigits_length (n : Nat) : (decimalDigits n).length = Nat.log 10 n + 1 := by
  induction n using Nat.strong_induction_on with
  | _ n ih =>
    by_cases h : n < 10
    · rw [decimalDigits_of_lt n h, Nat.log_of_lt h]
      rfl
    · have hlog : Nat.log 10 n = Nat.log 10 (n / 10) + 1 :=
        Nat.log_of_one_lt_of_le (by decide) (by omega)
      rw [decimalDigits_of_ge n h, List.length_append, ih (n / 10) (by omega), hlog]
      rfl

theorem intChars_natCast (n : Nat) : intChars (n : Int) = decimalDigits n := by
  simp [intChars, signChars]

theorem pad3_decimalDigits (n : Nat) (h : n < 1000) :
    List.replicate (3 - (decimalDigits n).length) (chr '0') ++ decimalDigits n =
      [chr '0' + ((n / 100 : Nat) : Int), chr '0' + ((n / 10 % 10 : Nat) : Int),
        chr '0' + ((n % 10 : Nat) : Int)] := by
  by_cases h1 : n < 10
  · rw [decimalDigits_of_lt n h1]
    have e1 : n / 100 = 0 := by omega
    have e2 : n / 10 % 10 = 0 := by omega
    have e3 : n % 10 = n := by omega
    rw [e1, e2, e3]
    rfl
  · rw [decimalDigits_of_ge n h1]
    by_cases h2 : n / 10 < 10
    · rw [decimalDigits_of_lt _ h2]
      have e1 : n / 100 = 0 := by omega
      have e2 : n / 10 % 10 = n / 10 := by omega
      rw [e1, e2]
      rfl
    · rw [decimalDigits_of_ge _ h2, decimalDigits_of_lt (n / 10 / 10) (by omega)]
      have e1 : n / 10 / 10 = n / 100 := by omega
      rw [e1]
      rfl

theorem ToString_eq (p : VehiclePlate) :
    p.ToString =
      [p.letters_.c0, p.letters_.c1] ++
        (List.replicate (3 - (intChars p.digits_).length) (chr '0') ++ intChars p.digits_) ++
          [p.letters_.c2] ++
            (List.replicate (2 - (intChars p.region_).length) (chr '0') ++ intChars p.region_) := by
  simp [VehiclePlate.ToString, OStringStream.putChar, OStringStream.putInt, OStringStream.setw,
    OStringStream.setfill, OStringStream.right, OStringStream.str]

theorem ToString_of_natCast (c : CharArray3) (d r : Nat) (hd : d < 1000) :
    VehiclePlate.ToString ⟨c, (d : Int), (r : Int)⟩ =
      [c.c0, c.c1, chr '0' + ((d / 100 : Nat) : Int), chr '0' + ((d / 10 % 10 : Nat) : Int),
        chr '0' + ((d % 10 : Nat) : Int), c.c2] ++
          (List.replicate (2 - (decimalDigits r).length) (chr '0') ++ decimalDigits r) := by
  rw [ToString_eq]
  simp only [intChars_natCast, pad3_decimalDigits d hd]
  rfl

set_option maxRecDepth 20000 in
theorem possible_regions_bounds (r : Int) (h : r ∈ possible_regions_) : 1 ≤ r ∧ r ≤ 777 := by
  revert r
  decide

/-! ## Conversions to machine integers -/

theorem toSizeT_natCast (w n : Nat) : toSizeT w (n : Int) = n % 2 ^ w := by
  unfold toSizeT
  have e : ((n : Int) % (2 : Int) ^ w) = ((n % 2 ^ w : Nat) : Int) := by
    push_cast
    rfl
  rw [e, Int.toNat_natCast]

theorem toSizeT_of_lt (w n : Nat) (h : n < 2 ^ w) : toSizeT w (n : Int) = n := by
  rw [toSizeT_natCast, Nat.mod_eq_of_lt h]

theorem toSizeT_cast (w : Nat) (x : Int) : ((toSizeT w x : Nat) : Int) = x % (2 : Int) ^ w := by
  unfold toSizeT
  exact Int.toNat_of_nonneg (Int.emod_nonneg _ (pow_ne_zero _ (by decide)))

theorem wrapInt_of_range (x : Int) (h1 : -2147483648 ≤ x) (h2 : x < 2147483648) :
    wrapInt x = x := by
  unfold wrapInt
  norm_num
  omega


theorem ToString_digits_natCast (c : CharArray3) (d : Nat) (r : Int) (hd : d < 1000) :
    VehiclePlate.ToString ⟨c, (d : Int), r⟩ =
      [c.c0, c.c1, chr '0' + ((d / 100 : Nat) : Int), chr '0' + ((d / 10 % 10 : Nat) : Int),
        chr '0' + ((d % 10 : Nat) : Int), c.c2] ++
          (List.replicate (2 - (intChars r).length) (chr '0') ++ intChars r) := by
  rw [ToString_eq]
  simp only [intChars_natCast, pad3_decimalDigits d hd]
  rfl

/-! ## The polynomial fold modulo `2 ^ w` -/

theorem foldl_mod_step (m : Nat) (xs : List Nat) (a : Nat) :
    xs.foldl (fun acc x => (acc * 31 + x % m) % m) (a % m) =
      (xs.foldl (fun acc x => acc * 31 + x) a) % m := by
  induction xs generalizing a with
  | nil => rfl
  | cons x xs ih =>
    have e : (a % m * 31 + x % m) % m = (a * 31 + x) % m :=
      Nat.ModEq.add (Nat.ModEq.mul_right 31 (Nat.mod_modEq a m)) (Nat.mod_modEq x m)
    rw [List.foldl_cons, List.foldl_cons, e, ih]

theorem foldl_mod_step' (m : Nat) (xs : List Nat) (a : Nat) :
    xs.foldl (fun acc x => (acc * 31 + x) % m) (a % m) =
      (xs.foldl (fun acc x => acc * 31 + x) a) % m := by
  induction xs generalizing a with
  | nil => rfl
  | cons x xs ih =>
    have e : (a % m * 31 + x) % m = (a * 31 + x) % m :=
      Nat.ModEq.add_right x (Nat.ModEq.mul_right 31 (Nat.mod_modEq a m))
    rw [List.foldl_cons, List.foldl_cons, e, ih]

theorem PlateHasherAll_natCast (w : Nat) (n0 n1 n2 d r : Nat) :
    PlateHasherAll w ⟨⟨(n0 : Int), (n1 : Int), (n2 : Int)⟩, (d : Int), (r : Int)⟩ =
      ([n0, n1, n2, d, r].foldl (fun acc x => acc * 31 + x) 0) % 2 ^ w := by
  have h := foldl_mod_step (2 ^ w) [n0, n1, n2, d, r] 0
  rw [← h]
  simp only [PlateHasherAll, VehiclePlate.GetLetters, VehiclePlate.GetDigits,
    VehiclePlate.GetRegion, CharArray3.toList, List.foldl, toSizeT_natCast, Nat.zero_mod]

/-! ## The claims -/

/-- C1: for every fill list and find list, the match count of the `unordered_set` phase
(hashing with `PlateHasherAll`, comparing with `operator==`) equals the match count of the
`set` phase (ordering with `operator<`), whatever the width of `size_t` and the bucket
counts chosen on rehash. -/
theorem phases_agree (w : Nat) (policy : Nat → Nat) (fill_vector find_vector : List VehiclePlate) :
    phaseUnorderedSet w policy fill_vector find_vector = phaseSet fill_vector find_vector := by
  rw [phaseUnorderedSet_eq, phaseSet_eq]

/-- C2: `k1 == k2` is true if and only if the three letters are equal element-wise, the
digits are equal and the region codes are equal. -/
theorem opEq_spec (k1 k2 : VehiclePlate) :
    k1.opEq k2 = true ↔
      (k1.letters_.c0 = k2.letters_.c0 ∧ k1.letters_.c1 = k2.letters_.c1 ∧
        k1.letters_.c2 = k2.letters_.c2) ∧ k1.digits_ = k2.digits_ ∧
          k1.region_ = k2.region_ := by
  rw [opEq_iff_fields]
  tauto

/-- C3: `k1 < k2` is the lexicographic order over (letters, digits, region): it is true
exactly when the letters differ and the letter of `k1` is smaller at the first differing
position, or the letters are equal and the digits of `k1` are smaller, or letters and digits
are equal and the region of `k1` is smaller. -/
theorem opLt_spec (k1 k2 : VehiclePlate) :
    k1.opLt k2 = true ↔
      (k1.letters_.c0 < k2.letters_.c0 ∨
        (k1.letters_.c0 = k2.letters_.c0 ∧ k1.letters_.c1 < k2.letters_.c1) ∨
        (k1.letters_.c0 = k2.letters_.c0 ∧ k1.letters_.c1 = k2.letters_.c1 ∧
          k1.letters_.c2 < k2.letters_.c2)) ∨
      ((k1.letters_.c0 = k2.letters_.c0 ∧ k1.letters_.c1 = k2.letters_.c1 ∧
          k1.letters_.c2 = k2.letters_.c2) ∧ k1.digits_ < k2.digits_) ∨
      ((k1.letters_.c0 = k2.letters_.c0 ∧ k1.letters_.c1 = k2.letters_.c1 ∧
          k1.letters_.c2 = k2.letters_.c2) ∧ k1.digits_ = k2.digits_ ∧
        k1.region_ < k2.region_) :=
  opLt_iff_fields k1 k2

/-- C4: `operator<` is a strict weak ordering consistent with `operator==`: it is
irreflexive and transitive, and two keys are incomparable if and only if they are equal
under `operator==`. -/
theorem opLt_strict_weak_order :
    (∀ k : VehiclePlate, k.opLt k = false) ∧
    (∀ k1 k2 k3 : VehiclePlate, k1.opLt k2 = true → k2.opLt k3 = true → k1.opLt k3 = true) ∧
    (∀ k1 k2 : VehiclePlate,
      (k1.opLt k2 = false ∧ k2.opLt k1 = false) ↔ k1.opEq k2 = true) :=
  ⟨opLt_irrefl, opLt_trans, incomparable_iff_opEq⟩

/-- C5: each of the four hash strategies gives equal hashes to keys that are equal under
`operator==`; the string hash is any fixed function of the string. -/
theorem hashers_respect_opEq (w : Nat) (hasher : List Int → Nat) (k1 k2 : VehiclePlate)
    (h : k1.opEq k2 = true) :
    PlateHasherTrivial w k1 = PlateHasherTrivial w k2 ∧
    PlateHasherRegion w k1 = PlateHasherRegion w k2 ∧
    PlateHasherString hasher k1 = PlateHasherString hasher k2 ∧
    PlateHasherAll w k1 = PlateHasherAll w k2 := by
  have e := (opEq_iff_eq k1 k2).1 h
  subst e
  exact ⟨rfl, rfl, rfl, rfl⟩

/-- Witness for C5 at the key `AA001A77` and a string hash that sums the characters. -/
theorem hashers_respect_opEq_witness :
    (VehiclePlate.mk5 65 65 1 65 77).opEq (VehiclePlate.mk5 65 65 1 65 77) = true ∧
    (PlateHasherTrivial 64 (VehiclePlate.mk5 65 65 1 65 77) =
        PlateHasherTrivial 64 (VehiclePlate.mk5 65 65 1 65 77) ∧
      PlateHasherRegion 64 (VehiclePlate.mk5 65 65 1 65 77) =
        PlateHasherRegion 64 (VehiclePlate.mk5 65 65 1 65 77) ∧
      PlateHasherString (fun s => s.sum.toNat) (VehiclePlate.mk5 65 65 1 65 77) =
        PlateHasherString (fun s => s.sum.toNat) (VehiclePlate.mk5 65 65 1 65 77) ∧
      PlateHasherAll 64 (VehiclePlate.mk5 65 65 1 65 77) =
        PlateHasherAll 64 (VehiclePlate.mk5 65 65 1 65 77)) :=
  ⟨by decide, hashers_respect_opEq 64 (fun s => s.sum.toNat) _ _ (by decide)⟩


/-- C6 as stated fails: the valid key `AA000A` with region 1 is rendered as the eight
characters `AA000A01`, while 2 + 3 + 1 + len(str(1)) is 7. -/
theorem ToString_length_region_one :
    ValidPlate (VehiclePlate.mk5 (chr 'A') (chr 'A') 0 (chr 'A') 1) ∧
    (VehiclePlate.mk5 (chr 'A') (chr 'A') 0 (chr 'A') 1).ToString =
      [chr 'A', chr 'A', chr '0', chr '0', chr '0', chr 'A', chr '0', chr '1'] ∧
    (VehiclePlate.mk5 (chr 'A') (chr 'A') 0 (chr 'A') 1).ToString.length ≠
      2 + 3 + 1 + decimalLength (VehiclePlate.mk5 (chr 'A') (chr 'A') 0 (chr 'A') 1).region_ := by
  have e : (VehiclePlate.mk5 (chr 'A') (chr 'A') 0 (chr 'A') 1).ToString =
      [chr 'A', chr 'A', chr '0', chr '0', chr '0', chr 'A', chr '0', chr '1'] := by
    have h := ToString_of_natCast ⟨chr 'A', chr 'A', chr 'A'⟩ 0 1 (by decide)
    rw [decimalDigits_of_lt 1 (by decide)] at h
    exact h
  refine ⟨by decide, e, ?_⟩
  rw [e]
  simp [VehiclePlate.mk5, decimalLength]

/-- C6, amended: for every valid key the string returned by `ToString` has length
2 + 3 + 1 + max(2, len(str(region))): the region field is at least two characters wide. -/
theorem ToString_length (p : VehiclePlate) (h : ValidPlate p) :
    p.ToString.length = 2 + 3 + 1 + max 2 (decimalLength p.region_) := by
  obtain ⟨c, d, r⟩ := p
  obtain ⟨_, _, _, hd0, hd1, hr⟩ := h
  simp only at hd0 hd1 hr
  have hr0 := (possible_regions_bounds r hr).1
  lift d to ℕ using hd0
  lift r to ℕ using (by omega)
  rw [ToString_of_natCast c d r (by omega)]
  simp only [List.length_append, List.length_cons, List.length_nil, List.length_replicate,
    decimalDigits_length, decimalLength, Int.toNat_natCast]
  omega

/-- Witness for C6 (amended) at the valid key `AA000A01`. -/
theorem ToString_length_witness :
    ValidPlate (VehiclePlate.mk5 (chr 'A') (chr 'A') 0 (chr 'A') 1) ∧
    (VehiclePlate.mk5 (chr 'A') (chr 'A') 0 (chr 'A') 1).ToString.length =
      2 + 3 + 1 + max 2 (decimalLength (VehiclePlate.mk5 (chr 'A') (chr 'A') 0 (chr 'A') 1).region_) :=
  ⟨by decide, ToString_length _ (by decide)⟩

/-- C7: for every key with digits in [0, 999], `ToString` begins with `letters[0]` and
`letters[1]`, followed by the three decimal digits of `digits` (hundreds, tens, units, so
left-padded with the character 0), followed by `letters[2]` at position 5. -/
theorem ToString_prefix (p : VehiclePlate) (h0 : 0 ≤ p.digits_) (h1 : p.digits_ ≤ 999) :
    (∃ rest, p.ToString =
      [p.letters_.c0, p.letters_.c1, chr '0' + p.digits_ / 100,
        chr '0' + p.digits_ / 10 % 10, chr '0' + p.digits_ % 10, p.letters_.c2] ++ rest) ∧
    p.ToString[5]? = some p.letters_.c2 := by
  obtain ⟨c, d, r⟩ := p
  simp only at h0 h1
  lift d to ℕ using h0
  have e := ToString_digits_natCast c d r (by omega)
  push_cast at e
  rw [e]
  exact ⟨⟨_, rfl⟩, by simp⟩

/-- Witness for C7 at the key `XY042K` with region 150. -/
theorem ToString_prefix_witness :
    (0 : Int) ≤ (VehiclePlate.mk5 88 89 42 75 150).digits_ ∧
    (VehiclePlate.mk5 88 89 42 75 150).digits_ ≤ 999 ∧
    ((∃ rest, (VehiclePlate.mk5 88 89 42 75 150).ToString =
      [(VehiclePlate.mk5 88 89 42 75 150).letters_.c0,
        (VehiclePlate.mk5 88 89 42 75 150).letters_.c1,
        chr '0' + (VehiclePlate.mk5 88 89 42 75 150).digits_ / 100,
        chr '0' + (VehiclePlate.mk5 88 89 42 75 150).digits_ / 10 % 10,
        chr '0' + (VehiclePlate.mk5 88 89 42 75 150).digits_ % 10,
        (VehiclePlate.mk5 88 89 42 75 150).letters_.c2] ++ rest) ∧
      (VehiclePlate.mk5 88 89 42 75 150).ToString[5]? =
        some (VehiclePlate.mk5 88 89 42 75 150).letters_.c2) :=
  ⟨by decide, by decide, ToString_prefix _ (by decide) (by decide)⟩

/-- C8: for every key whose letter codes, digits and region are non-negative,
`PlateHasherAll` is the base-31 fold of `letters[0]`, `letters[1]`, `letters[2]`, `digits`,
`region` from 0 with each step `acc = acc * 31 + field` taken in `size_t`, which is
`letters[0]*31^4 + letters[1]*31^3 + letters[2]*31^2 + digits*31 + region` modulo `2 ^ w`. -/
theorem PlateHasherAll_polynomial (w : Nat) (p : VehiclePlate)
    (h0 : 0 ≤ p.letters_.c0) (h1 : 0 ≤ p.letters_.c1) (h2 : 0 ≤ p.letters_.c2)
    (hd : 0 ≤ p.digits_) (hr : 0 ≤ p.region_) :
    PlateHasherAll w p =
      [p.letters_.c0.toNat, p.letters_.c1.toNat, p.letters_.c2.toNat, p.digits_.toNat,
        p.region_.toNat].foldl (fun acc field => (acc * 31 + field) % 2 ^ w) 0 ∧
    PlateHasherAll w p =
      (p.letters_.c0.toNat * 31 ^ 4 + p.letters_.c1.toNat * 31 ^ 3 +
        p.letters_.c2.toNat * 31 ^ 2 + p.digits_.toNat * 31 + p.region_.toNat) % 2 ^ w := by
  obtain ⟨⟨c0, c1, c2⟩, d, r⟩ := p
  simp only at h0 h1 h2 hd hr
  lift c0 to ℕ using h0
  lift c1 to ℕ using h1
  lift c2 to ℕ using h2
  lift d to ℕ using hd
  lift r to ℕ using hr
  simp only [Int.toNat_natCast]
  rw [PlateHasherAll_natCast]
  constructor
  · have h := foldl_mod_step' (2 ^ w) [c0, c1, c2, d, r] 0
    rw [Nat.zero_mod] at h
    exact h.symm
  · simp only [List.foldl]
    congr 1
    ring

/-- Witness for C8 at the key `AA001A` with region 1 and a 64-bit `size_t`. -/
theorem PlateHasherAll_polynomial_witness :
    PlateHasherAll 64 (VehiclePlate.mk5 65 65 1 65 1) =
      [(65 : Int).toNat, (65 : Int).toNat, (65 : Int).toNat, (1 : Int).toNat,
        (1 : Int).toNat].foldl (fun acc field => (acc * 31 + field) % 2 ^ 64) 0 ∧
    PlateHasherAll 64 (VehiclePlate.mk5 65 65 1 65 1) =
      ((65 : Int).toNat * 31 ^ 4 + (65 : Int).toNat * 31 ^ 3 + (65 : Int).toNat * 31 ^ 2 +
        (1 : Int).toNat * 31 + (1 : Int).toNat) % 2 ^ 64 :=
  PlateHasherAll_polynomial 64 (VehiclePlate.mk5 65 65 1 65 1) (by decide) (by decide)
    (by decide) (by decide) (by decide)


/-- C9: `PlateHasherTrivial` returns the digits of the key (converted to `size_t`) and
nothing else: keys with the same digits have the same hash whatever their letters and
region, for digits in [0, 999] the hash is the digits value and lies in [0, 999], and over
all valid keys the hash takes exactly the 1000 values 0, ..., 999. -/
theorem PlateHasherTrivial_spec (w : Nat) (hw : 10 ≤ w) :
    (∀ p : VehiclePlate, ((PlateHasherTrivial w p : Nat) : Int) = p.digits_ % 2 ^ w) ∧
    (∀ p q : VehiclePlate, p.digits_ = q.digits_ →
      PlateHasherTrivial w p = PlateHasherTrivial w q) ∧
    (∀ p : VehiclePlate, 0 ≤ p.digits_ → p.digits_ ≤ 999 →
      ((PlateHasherTrivial w p : Nat) : Int) = p.digits_ ∧ PlateHasherTrivial w p ≤ 999) ∧
    Set.image (PlateHasherTrivial w) {p | ValidPlate p} = {v | v ≤ 999} ∧
    (Set.image (PlateHasherTrivial w) {p | ValidPlate p}).ncard = 1000 := by
  have hpow : 1024 ≤ 2 ^ w := Nat.pow_le_pow_right (by decide : 2 > 0) hw
  have hsmall : ∀ p : VehiclePlate, 0 ≤ p.digits_ → p.digits_ ≤ 999 →
      ((PlateHasherTrivial w p : Nat) : Int) = p.digits_ ∧ PlateHasherTrivial w p ≤ 999 := by
    intro p h0 h1
    obtain ⟨c, d, r⟩ := p
    simp only at h0 h1
    lift d to ℕ using h0
    have hd : d ≤ 999 := by omega
    have e : PlateHasherTrivial w ⟨c, (d : Int), r⟩ = d :=
      toSizeT_of_lt w d (by omega)
    rw [e]
    exact ⟨rfl, hd⟩
  have himg : Set.image (PlateHasherTrivial w) {p | ValidPlate p} = {v | v ≤ 999} := by
    ext v
    simp only [Set.mem_image, Set.mem_setOf_eq]
    constructor
    · rintro ⟨p, hp, rfl⟩
      exact (hsmall p hp.2.2.2.1 hp.2.2.2.2.1).2
    · intro hv
      refine ⟨⟨⟨chr 'A', chr 'A', chr 'A'⟩, (v : Int), 1⟩, ?_, toSizeT_of_lt w v (by omega)⟩
      have hA : chr 'A' ∈ possible_chars_ := by decide
      have hR : (1 : Int) ∈ possible_regions_ := by decide
      refine ⟨hA, hA, hA, ?_, ?_, hR⟩
      · exact Int.natCast_nonneg v
      · show (v : Int) ≤ 999
        omega
  refine ⟨fun p => toSizeT_cast w p.digits_, ?_, hsmall, himg, ?_⟩
  · intro p q h
    unfold PlateHasherTrivial VehiclePlate.GetDigits
    rw [h]
  · rw [himg]
    have e : {v : Nat | v ≤ 999} = ((Finset.range 1000 : Finset Nat) : Set Nat) := by
      ext v
      simp only [Set.mem_setOf_eq, Finset.coe_range, Set.mem_Iio]
      omega
    rw [e, Set.ncard_coe_Finset, Finset.card_range]

/-- Witness for C9 with a 64-bit `size_t`. -/
theorem PlateHasherTrivial_spec_witness :
    10 ≤ 64 ∧
    ((∀ p : VehiclePlate, ((PlateHasherTrivial 64 p : Nat) : Int) = p.digits_ % 2 ^ 64) ∧
    (∀ p q : VehiclePlate, p.digits_ = q.digits_ →
      PlateHasherTrivial 64 p = PlateHasherTrivial 64 q) ∧
    (∀ p : VehiclePlate, 0 ≤ p.digits_ → p.digits_ ≤ 999 →
      ((PlateHasherTrivial 64 p : Nat) : Int) = p.digits_ ∧ PlateHasherTrivial 64 p ≤ 999) ∧
    Set.image (PlateHasherTrivial 64) {p | ValidPlate p} = {v | v ≤ 999} ∧
    (Set.image (PlateHasherTrivial 64) {p | ValidPlate p}).ncard = 1000) :=
  ⟨by decide, PlateHasherTrivial_spec 64 (by decide)⟩

/-- C10: for every key with digits in [0, 999] and region in the allow-list,
`PlateHasherRegion` returns `digits + region * 1000`, and the result does not depend on the
letters: a key with the same digits and the same region has the same hash. -/
theorem PlateHasherRegion_spec (w : Nat) (hw : 20 ≤ w) (p : VehiclePlate)
    (h0 : 0 ≤ p.digits_) (h1 : p.digits_ ≤ 999) (hr : p.region_ ∈ possible_regions_) :
    ((PlateHasherRegion w p : Nat) : Int) = p.digits_ + p.region_ * 1000 ∧
    ∀ q : VehiclePlate, q.digits_ = p.digits_ → q.region_ = p.region_ →
      PlateHasherRegion w q = PlateHasherRegion w p := by
  constructor
  · obtain ⟨hr1, hr2⟩ := possible_regions_bounds p.region_ hr
    have hpow : 1048576 ≤ 2 ^ w := Nat.pow_le_pow_right (by decide : 2 > 0) hw
    unfold PlateHasherRegion VehiclePlate.GetDigits VehiclePlate.GetRegion
    rw [wrapInt_of_range (p.region_ * 1000) (by omega) (by omega),
      wrapInt_of_range (p.digits_ + p.region_ * 1000) (by omega) (by omega)]
    have hnn : 0 ≤ p.digits_ + p.region_ * 1000 := by omega
    obtain ⟨n, hn⟩ := Int.eq_ofNat_of_zero_le hnn
    rw [hn, toSizeT_of_lt w n (by omega)]
  · intro q hd hq
    unfold PlateHasherRegion VehiclePlate.GetDigits VehiclePlate.GetRegion
    rw [hd, hq]

/-- Witness for C10 at the key `AB123C` with region 777 and a 32-bit `size_t`. -/
theorem PlateHasherRegion_spec_witness :
    20 ≤ 32 ∧ (0 : Int) ≤ (VehiclePlate.mk5 65 66 123 67 777).digits_ ∧
    (VehiclePlate.mk5 65 66 123 67 777).digits_ ≤ 999 ∧
    (VehiclePlate.mk5 65 66 123 67 777).region_ ∈ possible_regions_ ∧
    (((PlateHasherRegion 32 (VehiclePlate.mk5 65 66 123 67 777) : Nat) : Int) =
        (VehiclePlate.mk5 65 66 123 67 777).digits_ +
          (VehiclePlate.mk5 65 66 123 67 777).region_ * 1000 ∧
      ∀ q : VehiclePlate, q.digits_ = (VehiclePlate.mk5 65 66 123 67 777).digits_ →
        q.region_ = (VehiclePlate.mk5 65 66 123 67 777).region_ →
          PlateHasherRegion 32 q = PlateHasherRegion 32 (VehiclePlate.mk5 65 66 123 67 777)) :=
  ⟨by decide, by decide, by decide, by decide,
    PlateHasherRegion_spec 32 (by decide) _ (by decide) (by decide) (by decide)⟩


/-! ## The generator -/

theorem toShort_chars : toShort ((possible_chars_.length : Int) - 1) = 12 := by
  decide

theorem possible_regions_length : (possible_regions_.length : Int) - 1 = 121 := by
  simp [possible_regions_]

theorem toShort_regions : toShort ((possible_regions_.length : Int) - 1) = 121 := by
  rw [possible_regions_length]
  decide

theorem tableAt_of_range (table : List Int) (i : Int) (h0 : 0 ≤ i)
    (h1 : i ≤ (table.length : Int) - 1) :
    ∃ c, tableAt table i = some c ∧ c ∈ table := by
  have hlt : i.toNat < table.length := by omega
  refine ⟨table[i.toNat], ?_, List.getElem_mem hlt⟩
  unfold tableAt
  rw [if_pos h0]
  exact List.getElem?_eq_getElem hlt

theorem GenerateChar_spec {σ : Type} (draw : σ → Int → Int → Int × σ) (hdraw : DrawInRange draw)
    (g : PlateGenerator σ) :
    ∃ r, g.GenerateChar draw = some r ∧ r.1 ∈ possible_chars_ := by
  unfold PlateGenerator.GenerateChar
  rw [toShort_chars]
  obtain ⟨h0, h1⟩ := hdraw g.engine_ 0 12 (by decide)
  obtain ⟨c, hc, hmem⟩ := tableAt_of_range possible_chars_ (draw g.engine_ 0 12).1 h0
    (by have e : (possible_chars_.length : Int) - 1 = 12 := by decide
        rw [e]; exact h1)
  refine ⟨(c, { engine_ := (draw g.engine_ 0 12).2 }), ?_, hmem⟩
  simp only [hc, Option.map_some']

theorem GenerateRegion_spec {σ : Type} (draw : σ → Int → Int → Int × σ)
    (hdraw : DrawInRange draw) (g : PlateGenerator σ) :
    ∃ r, g.GenerateRegion draw = some r ∧ r.1 ∈ possible_regions_ := by
  unfold PlateGenerator.GenerateRegion
  rw [toShort_regions]
  obtain ⟨h0, h1⟩ := hdraw g.engine_ 0 121 (by decide)
  obtain ⟨c, hc, hmem⟩ := tableAt_of_range possible_regions_ (draw g.engine_ 0 121).1 h0
    (by rw [possible_regions_length]; exact h1)
  refine ⟨(c, { engine_ := (draw g.engine_ 0 121).2 }), ?_, hmem⟩
  simp only [hc, Option.map_some']

theorem GenerateNumber_spec {σ : Type} (draw : σ → Int → Int → Int × σ)
    (hdraw : DrawInRange draw) (g : PlateGenerator σ) :
    0 ≤ (g.GenerateNumber draw).1 ∧ (g.GenerateNumber draw).1 ≤ 999 :=
  hdraw g.engine_ 0 999 (by decide)

theorem evalArg_spec {σ : Type} (draw : σ → Int → Int → Int × σ) (hdraw : DrawInRange draw)
    (st : Args × PlateGenerator σ) (a : Arg) :
    ∃ st', evalArg draw st a = some st' ∧ ArgOk a st'.1 ∧
      ∀ b, b ≠ a → ArgOk b st.1 → ArgOk b st'.1 := by
  cases a with
  | l0 =>
    obtain ⟨r, hr, hmem⟩ := GenerateChar_spec draw hdraw st.2
    refine ⟨({ st.1 with l0 := r.1 }, r.2), by simp only [evalArg, hr, Option.map_some'],
      hmem, ?_⟩
    intro b hb hok
    cases b <;> first | exact absurd rfl hb | exact hok
  | l1 =>
    obtain ⟨r, hr, hmem⟩ := GenerateChar_spec draw hdraw st.2
    refine ⟨({ st.1 with l1 := r.1 }, r.2), by simp only [evalArg, hr, Option.map_some'],
      hmem, ?_⟩
    intro b hb hok
    cases b <;> first | exact absurd rfl hb | exact hok
  | digits =>
    refine ⟨({ st.1 with digits := (st.2.GenerateNumber draw).1 },
      (st.2.GenerateNumber draw).2), rfl, GenerateNumber_spec draw hdraw st.2, ?_⟩
    intro b hb hok
    cases b <;> first | exact absurd rfl hb | exact hok
  | l2 =>
    obtain ⟨r, hr, hmem⟩ := GenerateChar_spec draw hdraw st.2
    refine ⟨({ st.1 with l2 := r.1 }, r.2), by simp only [evalArg, hr, Option.map_some'],
      hmem, ?_⟩
    intro b hb hok
    cases b <;> first | exact absurd rfl hb | exact hok
  | region =>
    obtain ⟨r, hr, hmem⟩ := GenerateRegion_spec draw hdraw st.2
    refine ⟨({ st.1 with region := r.1 }, r.2), by simp only [evalArg, hr, Option.map_some'],
      hmem, ?_⟩
    intro b hb hok
    cases b <;> first | exact absurd rfl hb | exact hok

theorem evalArgs_spec {σ : Type} (draw : σ → Int → Int → Int × σ) (hdraw : DrawInRange draw)
    (order : List Arg) (st : Args × PlateGenerator σ) :
    ∃ st', evalArgs draw order st = some st' ∧
      ∀ b, (b ∈ order ∨ ArgOk b st.1) → ArgOk b st'.1 := by
  induction order generalizing st with
  | nil =>
    refine ⟨st, rfl, ?_⟩
    intro b hb
    rcases hb with hb | hb
    · exact absurd hb (List.not_mem_nil b)
    · exact hb
  | cons a rest ih =>
    obtain ⟨st1, h1, hok, hkeep⟩ := evalArg_spec draw hdraw st a
    obtain ⟨st', h', hall⟩ := ih st1
    refine ⟨st', by simp only [evalArgs, h1, h'], ?_⟩
    intro b hb
    by_cases hba : b = a
    · subst hba
      exact hall b (Or.inr hok)
    · rcases hb with hb | hb
      · rcases List.mem_cons.1 hb with hb | hb
        · exact absurd hb hba
        · exact hall b (Or.inl hb)
      · exact hall b (Or.inr (hkeep b hba hb))

theorem Generate_spec {σ : Type} (draw : σ → Int → Int → Int × σ) (hdraw : DrawInRange draw)
    (order : List Arg) (horder : IsEvalOrder order) (g : PlateGenerator σ) :
    ∃ p g', g.Generate draw order = some (p, g') ∧ ValidPlate p := by
  obtain ⟨st', h', hall⟩ := evalArgs_spec draw hdraw order ({}, g)
  have hmem : ∀ b : Arg, b ∈ order := by
    intro b
    refine (List.Perm.mem_iff horder).2 ?_
    cases b <;> decide
  refine ⟨VehiclePlate.mk5 st'.1.l0 st'.1.l1 st'.1.digits st'.1.l2 st'.1.region, st'.2, ?_, ?_⟩
  · simp only [PlateGenerator.Generate, h', Option.map_some']
  · have a0 := hall Arg.l0 (Or.inl (hmem _))
    have a1 := hall Arg.l1 (Or.inl (hmem _))
    have a2 := hall Arg.l2 (Or.inl (hmem _))
    have a3 := hall Arg.digits (Or.inl (hmem _))
    have a4 := hall Arg.region (Or.inl (hmem _))
    exact ⟨a0, a1, a2, a3.1, a3.2, a4⟩

theorem generateN_spec {σ : Type} (draw : σ → Int → Int → Int × σ) (hdraw : DrawInRange draw)
    (order : List Arg) (horder : IsEvalOrder order) (n : Nat) (g : PlateGenerator σ) :
    ∃ keys g', generateN draw order n g = some (keys, g') ∧ keys.length = n ∧
      ∀ k ∈ keys, ValidPlate k := by
  induction n generalizing g with
  | zero =>
    exact ⟨[], g, rfl, rfl, fun k hk => absurd hk (List.not_mem_nil k)⟩
  | succ n ih =>
    obtain ⟨p, g1, h1, hv⟩ := Generate_spec draw hdraw order horder g
    obtain ⟨ps, g2, h2, hlen, hall⟩ := ih g1
    refine ⟨p :: ps, g2, by simp only [generateN, h1, h2], by simp [hlen], ?_⟩
    intro k hk
    rcases List.mem_cons.1 hk with hk | hk
    · exact hk ▸ hv
    · exact hall k hk

theorem counterDraw_inRange : DrawInRange counterDraw := by
  intro e a b hab
  have hpos : 0 < b - a + 1 := by omega
  have h1 := Int.emod_nonneg (e : Int) (ne_of_gt hpos)
  have h2 := Int.emod_lt_of_pos (e : Int) hpos
  simp only [counterDraw]
  constructor <;> omega


/-! ## Counting matches -/

theorem fieldwiseEq_iff_eq (a b : VehiclePlate) : FieldwiseEq a b ↔ a = b := by
  rw [← opEq_iff_eq, opEq_iff_fields]
  rfl

theorem countP_mem_eq_matchingPositions (fill_vector find_vector : List VehiclePlate) :
    find_vector.countP (fun plate => decide (plate ∈ fill_vector)) =
      matchingPositions fill_vector find_vector := by
  unfold matchingPositions
  apply List.countP_congr
  intro q _
  simp only [decide_eq_true_eq, List.any_eq_true, fieldwiseEq_iff_eq]
  constructor
  · intro h
    exact ⟨q, h, rfl⟩
  · rintro ⟨f, hf, rfl⟩
    exact hf

theorem hashSet_finds_inserted (hash : VehiclePlate → Nat) (policy : Nat → Nat)
    (k : VehiclePlate) (keys : List VehiclePlate) (hk : k ∈ keys) :
    (keys.foldl (fun c p => UnorderedSet.insert hash policy c p) UnorderedSet.empty).count
      hash k > 0 := by
  rw [UnorderedSet.count_pos_iff_mem, UnorderedSet.mem_foldl_insert]
  exact Or.inr hk

theorem treeSet_finds_inserted (k : VehiclePlate) (keys : List VehiclePlate) (hk : k ∈ keys) :
    (keys.foldl (fun c p => SetTree.insert c p) SetTree.nil).count k > 0 := by
  obtain ⟨ho, hm⟩ := SetTree.foldl_insert_spec keys SetTree.nil trivial
  rw [SetTree.count_pos_iff_mem_keys _ _ ho, hm]
  exact Or.inr hk


/-! ## Reading the rendered fields back -/

theorem digitsValue_append_singleton (cs : List Int) (c : Int) :
    digitsValue (cs ++ [c]) = digitsValue cs * 10 + (c - chr '0') := by
  simp only [digitsValue, List.foldl_append, List.foldl_cons, List.foldl_nil]

theorem digitsValue_decimalDigits (n : Nat) : digitsValue (decimalDigits n) = (n : Int) := by
  induction n using Nat.strong_induction_on with
  | _ n ih =>
    by_cases h : n < 10
    · rw [decimalDigits_of_lt n h]
      simp only [digitsValue, List.foldl_cons, List.foldl_nil]
      omega
    · rw [decimalDigits_of_ge n h, digitsValue_append_singleton, ih (n / 10) (by omega)]
      push_cast
      omega

theorem digitsValue_replicate_zero (k : Nat) (cs : List Int) :
    digitsValue (List.replicate k (chr '0') ++ cs) = digitsValue cs := by
  induction k with
  | zero => rfl
  | succ k ih =>
    have e : digitsValue (List.replicate (k + 1) (chr '0') ++ cs) =
        digitsValue (List.replicate k (chr '0') ++ cs) := by
      simp only [digitsValue, List.replicate_succ, List.cons_append, List.foldl_cons]
      norm_num
    rw [e, ih]

theorem decimalDigits_eq_digits (n : Nat) (h : 0 < n) :
    decimalDigits n = (Nat.digits 10 n).reverse.map (fun d : Nat => chr '0' + (d : Int)) := by
  induction n using Nat.strong_induction_on with
  | _ n ih =>
    by_cases h10 : n < 10
    · rw [decimalDigits_of_lt n h10, Nat.digits_of_lt 10 n (by omega) h10]
      rfl
    · rw [decimalDigits_of_ge n h10, Nat.digits_def' (by decide) h,
        ih (n / 10) (by omega) (by omega)]
      simp only [List.reverse_cons, List.map_append, List.map_cons, List.map_nil]

theorem ToString_drop (c : CharArray3) (d : Nat) (r : Int) (hd : d < 1000) :
    (VehiclePlate.ToString ⟨c, (d : Int), r⟩).drop 6 =
      List.replicate (2 - (intChars r).length) (chr '0') ++ intChars r := by
  rw [ToString_digits_natCast c d r hd]
  rfl

/-! ## Bounds on the tables -/

theorem possible_chars_bounds (c : Int) (h : c ∈ possible_chars_) : 65 ≤ c ∧ c ≤ 89 := by
  revert c
  decide

/-! ## The region-weighted hash determines its argument -/

theorem wrapInt_emod (x : Int) : wrapInt x % 4294967296 = x % 4294967296 := by
  unfold wrapInt
  norm_num
  omega

theorem toSizeT_wrapInt_emod (w : Nat) (hw : 32 ≤ w) (x : Int) (h0 : 0 ≤ x)
    (h1 : x < 4294967296) : ((toSizeT w (wrapInt x) : Nat) : Int) % 4294967296 = x := by
  have hdvd : (4294967296 : Int) ∣ (2 : Int) ^ w := by
    have e : (4294967296 : Int) = (2 : Int) ^ 32 := by norm_num
    rw [e]
    exact pow_dvd_pow 2 hw
  rw [toSizeT_cast, Int.emod_emod_of_dvd _ hdvd, wrapInt_emod]
  exact Int.emod_eq_of_lt h0 h1

theorem PlateHasherRegion_recover (w : Nat) (hw : 32 ≤ w) (p : VehiclePlate)
    (hd0 : 0 ≤ p.digits_) (hd1 : p.digits_ ≤ 999) (hr0 : 0 ≤ p.region_)
    (hr1 : p.region_ * 1000 ≤ 2147483647) :
    ((PlateHasherRegion w p : Nat) : Int) % 4294967296 = p.digits_ + p.region_ * 1000 := by
  unfold PlateHasherRegion VehiclePlate.GetDigits VehiclePlate.GetRegion
  rw [wrapInt_of_range (p.region_ * 1000) (by omega) (by omega)]
  exact toSizeT_wrapInt_emod w hw _ (by omega) (by omega)


/-! ## The claims on the generator, the sets and the hashes -/

/-- C11: when every draw of `uniform_int_distribution{a, b}` lies in `[a, b]`, then for
every engine state and every order of evaluation of the five arguments `Generate` returns
a key (every table index is within bounds) and the key is valid: its three letters are
among the 13 characters of `"ABCEHKMNOPTXY"`, its digits are in [0, 999] and its region
is in `possible_regions_`. -/
theorem Generate_valid {σ : Type} (draw : σ → Int → Int → Int × σ) (hdraw : DrawInRange draw)
    (order : List Arg) (horder : IsEvalOrder order) (g : PlateGenerator σ) :
    ∃ p g', g.Generate draw order = some (p, g') ∧
      (p.letters_.c0 ∈ possible_chars_ ∧ p.letters_.c1 ∈ possible_chars_ ∧
        p.letters_.c2 ∈ possible_chars_ ∧ 0 ≤ p.digits_ ∧ p.digits_ ≤ 999 ∧
          p.region_ ∈ possible_regions_) :=
  Generate_spec draw hdraw order horder g

/-- Witness for C11 with the counter engine started at 0 and left-to-right evaluation. -/
theorem Generate_valid_witness :
    DrawInRange counterDraw ∧ IsEvalOrder leftToRight ∧
    ∃ p g', (PlateGenerator.mk 0).Generate counterDraw leftToRight = some (p, g') ∧
      (p.letters_.c0 ∈ possible_chars_ ∧ p.letters_.c1 ∈ possible_chars_ ∧
        p.letters_.c2 ∈ possible_chars_ ∧ 0 ≤ p.digits_ ∧ p.digits_ ≤ 999 ∧
          p.region_ ∈ possible_regions_) :=
  ⟨counterDraw_inRange, List.Perm.refl _,
    Generate_valid counterDraw counterDraw_inRange leftToRight (List.Perm.refl _)
      (PlateGenerator.mk 0)⟩

/-- C12: for every key `k`, every list of keys containing `k` and each of the four hash
strategies, the hash-based set built by inserting the keys of the list reports `k` as
found, and the order-based set built from the same list reports `k` as found. -/
theorem inserted_key_found (w : Nat) (policy : Nat → Nat) (hasher : List Int → Nat)
    (k : VehiclePlate) (keys : List VehiclePlate) (hk : k ∈ keys) :
    (∀ hash ∈ [PlateHasherTrivial w, PlateHasherRegion w, PlateHasherString hasher,
        PlateHasherAll w],
      (keys.foldl (fun c p => UnorderedSet.insert hash policy c p) UnorderedSet.empty).count
        hash k > 0) ∧
    (keys.foldl (fun c p => SetTree.insert c p) SetTree.nil).count k > 0 :=
  ⟨fun hash _ => hashSet_finds_inserted hash policy k keys hk, treeSet_finds_inserted k keys hk⟩

/-- Witness for C12 at the key `AA001A77` in a list of two keys. -/
theorem inserted_key_found_witness :
    VehiclePlate.mk5 65 65 1 65 77 ∈
      [VehiclePlate.mk5 66 66 2 66 78, VehiclePlate.mk5 65 65 1 65 77] ∧
    ((∀ hash ∈ [PlateHasherTrivial 64, PlateHasherRegion 64,
        PlateHasherString (fun s => s.sum.toNat), PlateHasherAll 64],
      (([VehiclePlate.mk5 66 66 2 66 78, VehiclePlate.mk5 65 65 1 65 77]).foldl
        (fun c p => UnorderedSet.insert hash (fun n => 2 * n + 1) c p)
          UnorderedSet.empty).count hash (VehiclePlate.mk5 65 65 1 65 77) > 0) ∧
    (([VehiclePlate.mk5 66 66 2 66 78, VehiclePlate.mk5 65 65 1 65 77]).foldl
      (fun c p => SetTree.insert c p) SetTree.nil).count (VehiclePlate.mk5 65 65 1 65 77) > 0) :=
  ⟨by decide, inserted_key_found 64 (fun n => 2 * n + 1) (fun s => s.sum.toNat) _ _ (by decide)⟩

/-- C13: for all fill and find lists (the find vector is filled by `generate_n` with the
`int` count `N`, so it has at most 2147483647 keys), the match count reported by each phase
equals the number of positions of the find list, duplicates counted each time, whose key
is field-wise equal to at least one key of the fill list. -/
theorem phases_count_matching (w : Nat) (policy : Nat → Nat)
    (fill_vector find_vector : List VehiclePlate) (hlen : find_vector.length ≤ 2147483647) :
    phaseUnorderedSet w policy fill_vector find_vector =
      (matchingPositions fill_vector find_vector : Int) ∧
    phaseSet fill_vector find_vector = (matchingPositions fill_vector find_vector : Int) := by
  have hle : matchingPositions fill_vector find_vector ≤ find_vector.length :=
    List.countP_le_length _
  have hw : wrapInt (matchingPositions fill_vector find_vector : Int) =
      (matchingPositions fill_vector find_vector : Int) :=
    wrapInt_of_range _ (by omega) (by omega)
  rw [phaseUnorderedSet_eq, phaseSet_eq, countP_mem_eq_matchingPositions, hw]
  exact ⟨rfl, rfl⟩

/-- Witness for C13 with two fill keys and three find keys, two of which match. -/
theorem phases_count_matching_witness :
    ([VehiclePlate.mk5 65 65 0 65 1, VehiclePlate.mk5 65 65 0 65 1,
      VehiclePlate.mk5 65 65 0 65 3]).length ≤ 2147483647 ∧
    (phaseUnorderedSet 64 (fun n => 2 * n + 1)
        [VehiclePlate.mk5 65 65 0 65 1, VehiclePlate.mk5 65 65 0 65 2]
        [VehiclePlate.mk5 65 65 0 65 1, VehiclePlate.mk5 65 65 0 65 1,
          VehiclePlate.mk5 65 65 0 65 3] =
      (matchingPositions [VehiclePlate.mk5 65 65 0 65 1, VehiclePlate.mk5 65 65 0 65 2]
        [VehiclePlate.mk5 65 65 0 65 1, VehiclePlate.mk5 65 65 0 65 1,
          VehiclePlate.mk5 65 65 0 65 3] : Int) ∧
    phaseSet [VehiclePlate.mk5 65 65 0 65 1, VehiclePlate.mk5 65 65 0 65 2]
        [VehiclePlate.mk5 65 65 0 65 1, VehiclePlate.mk5 65 65 0 65 1,
          VehiclePlate.mk5 65 65 0 65 3] =
      (matchingPositions [VehiclePlate.mk5 65 65 0 65 1, VehiclePlate.mk5 65 65 0 65 2]
        [VehiclePlate.mk5 65 65 0 65 1, VehiclePlate.mk5 65 65 0 65 1,
          VehiclePlate.mk5 65 65 0 65 3] : Int)) :=
  ⟨by decide, phases_count_matching 64 (fun n => 2 * n + 1) _ _ (by decide)⟩

/-- C14: two generators that start from the same engine state give, for every `n`, the
same result of `n` successive `Generate` calls: the same keys and the same final engine
state; and when the draws lie within their bounds the `n` calls do return `n` keys. -/
theorem generateN_deterministic {σ : Type} (draw : σ → Int → Int → Int × σ) (order : List Arg)
    (g1 g2 : PlateGenerator σ) (h : g1.engine_ = g2.engine_) (n : Nat) :
    generateN draw order n g1 = generateN draw order n g2 ∧
    (DrawInRange draw → IsEvalOrder order →
      ∃ keys g', generateN draw order n g1 = some (keys, g') ∧
        generateN draw order n g2 = some (keys, g') ∧ keys.length = n) := by
  obtain ⟨e1⟩ := g1
  obtain ⟨e2⟩ := g2
  simp only at h
  subst h
  refine ⟨rfl, ?_⟩
  intro hdraw horder
  obtain ⟨keys, g', hk, hlen, _⟩ := generateN_spec draw hdraw order horder n ⟨e1⟩
  exact ⟨keys, g', hk, hk, hlen⟩

/-- Witness for C14: two generators with the counter engine at state 7, three calls. -/
theorem generateN_deterministic_witness :
    (PlateGenerator.mk 7 : PlateGenerator Nat).engine_ = (PlateGenerator.mk 7).engine_ ∧
    (generateN counterDraw leftToRight 3 (PlateGenerator.mk 7) =
        generateN counterDraw leftToRight 3 (PlateGenerator.mk 7) ∧
      (DrawInRange counterDraw → IsEvalOrder leftToRight →
        ∃ keys g', generateN counterDraw leftToRight 3 (PlateGenerator.mk 7) = some (keys, g') ∧
          generateN counterDraw leftToRight 3 (PlateGenerator.mk 7) = some (keys, g') ∧
            keys.length = 3)) :=
  ⟨rfl, generateN_deterministic counterDraw leftToRight (PlateGenerator.mk 7)
    (PlateGenerator.mk 7) rfl 3⟩


/-- C15: `ToString` is injective on keys with digits in [0, 999] and non-negative region:
two such keys with the same string are equal under `operator==`. -/
theorem ToString_injective (k1 k2 : VehiclePlate)
    (hd1 : 0 ≤ k1.digits_) (hd1' : k1.digits_ ≤ 999) (hr1 : 0 ≤ k1.region_)
    (hd2 : 0 ≤ k2.digits_) (hd2' : k2.digits_ ≤ 999) (hr2 : 0 ≤ k2.region_)
    (h : k1.ToString = k2.ToString) : k1.opEq k2 = true := by
  obtain ⟨⟨a0, a1, a2⟩, d1, r1⟩ := k1
  obtain ⟨⟨b0, b1, b2⟩, d2, r2⟩ := k2
  simp only at hd1 hd1' hr1 hd2 hd2' hr2
  lift d1 to ℕ using hd1
  lift d2 to ℕ using hd2
  lift r1 to ℕ using hr1
  lift r2 to ℕ using hr2
  rw [ToString_digits_natCast _ d1 _ (by omega), ToString_digits_natCast _ d2 _ (by omega)] at h
  obtain ⟨hpre, hsuf⟩ := List.append_inj h rfl
  simp only [List.cons.injEq, and_true] at hpre
  obtain ⟨e0, e1, x1, x2, x3, e2⟩ := hpre
  have hr := congrArg digitsValue hsuf
  simp only [intChars_natCast, digitsValue_replicate_zero, digitsValue_decimalDigits] at hr
  have hd : (d1 : Int) = (d2 : Int) := by omega
  rw [opEq_iff_fields]
  exact ⟨e0, e1, e2, hd, hr⟩

/-- Witness for C15 at the key `XY042K150`. -/
theorem ToString_injective_witness :
    (VehiclePlate.mk5 88 89 42 75 150).opEq (VehiclePlate.mk5 88 89 42 75 150) = true :=
  ToString_injective (VehiclePlate.mk5 88 89 42 75 150) (VehiclePlate.mk5 88 89 42 75 150)
    (by decide) (by decide) (by decide) (by decide) (by decide) (by decide) rfl

/-- C16: `PlateHasherAll` is not injective on valid keys: the valid keys `AAA`, digits 0,
region 32 and `AAA`, digits 1, region 1 are unequal under `operator==` and have the same
`PlateHasherAll` hash, for every width of `size_t`. -/
theorem PlateHasherAll_collision (w : Nat) :
    ValidPlate (VehiclePlate.mk5 (chr 'A') (chr 'A') 0 (chr 'A') 32) ∧
    ValidPlate (VehiclePlate.mk5 (chr 'A') (chr 'A') 1 (chr 'A') 1) ∧
    (VehiclePlate.mk5 (chr 'A') (chr 'A') 0 (chr 'A') 32).opEq
      (VehiclePlate.mk5 (chr 'A') (chr 'A') 1 (chr 'A') 1) = false ∧
    PlateHasherAll w (VehiclePlate.mk5 (chr 'A') (chr 'A') 0 (chr 'A') 32) =
      PlateHasherAll w (VehiclePlate.mk5 (chr 'A') (chr 'A') 1 (chr 'A') 1) := by
  refine ⟨by decide, by decide, by decide, ?_⟩
  have e1 := PlateHasherAll_natCast w 65 65 65 0 32
  have e2 := PlateHasherAll_natCast w 65 65 65 1 1
  exact e1.trans e2.symm

/-- C17: for keys with digits in [0, 999] and a non-negative region whose product with
1000 does not overflow `int`, the `PlateHasherRegion` hashes are equal if and only if the
digits are equal and the regions are equal; so two valid keys with different regions never
have the same hash. The width of `size_t` is at least 32 bits. -/
theorem PlateHasherRegion_injective (w : Nat) (hw : 32 ≤ w) :
    (∀ k1 k2 : VehiclePlate,
      0 ≤ k1.digits_ → k1.digits_ ≤ 999 → 0 ≤ k1.region_ → k1.region_ * 1000 ≤ 2147483647 →
      0 ≤ k2.digits_ → k2.digits_ ≤ 999 → 0 ≤ k2.region_ → k2.region_ * 1000 ≤ 2147483647 →
      (PlateHasherRegion w k1 = PlateHasherRegion w k2 ↔
        k1.digits_ = k2.digits_ ∧ k1.region_ = k2.region_)) ∧
    (∀ k1 k2 : VehiclePlate, ValidPlate k1 → ValidPlate k2 → k1.region_ ≠ k2.region_ →
      PlateHasherRegion w k1 ≠ PlateHasherRegion w k2) := by
  have main : ∀ k1 k2 : VehiclePlate,
      0 ≤ k1.digits_ → k1.digits_ ≤ 999 → 0 ≤ k1.region_ → k1.region_ * 1000 ≤ 2147483647 →
      0 ≤ k2.digits_ → k2.digits_ ≤ 999 → 0 ≤ k2.region_ → k2.region_ * 1000 ≤ 2147483647 →
      (PlateHasherRegion w k1 = PlateHasherRegion w k2 ↔
        k1.digits_ = k2.digits_ ∧ k1.region_ = k2.region_) := by
    intro k1 k2 a1 a2 a3 a4 b1 b2 b3 b4
    constructor
    · intro h
      have r1 := PlateHasherRegion_recover w hw k1 a1 a2 a3 a4
      have r2 := PlateHasherRegion_recover w hw k2 b1 b2 b3 b4
      rw [h] at r1
      have e : k1.digits_ + k1.region_ * 1000 = k2.digits_ + k2.region_ * 1000 :=
        r1.symm.trans r2
      constructor <;> omega
    · rintro ⟨hd, hr⟩
      unfold PlateHasherRegion VehiclePlate.GetDigits VehiclePlate.GetRegion
      rw [hd, hr]
  refine ⟨main, ?_⟩
  intro k1 k2 v1 v2 hne heq
  obtain ⟨_, _, _, a1, a2, ar⟩ := v1
  obtain ⟨_, _, _, b1, b2, br⟩ := v2
  have ha := possible_regions_bounds _ ar
  have hb := possible_regions_bounds _ br
  exact hne ((main k1 k2 a1 a2 (by omega) (by omega) b1 b2 (by omega) (by omega)).1 heq).2

/-- Witness for C17 with a 64-bit `size_t`. -/
theorem PlateHasherRegion_injective_witness :
    32 ≤ 64 ∧
    ((∀ k1 k2 : VehiclePlate,
      0 ≤ k1.digits_ → k1.digits_ ≤ 999 → 0 ≤ k1.region_ → k1.region_ * 1000 ≤ 2147483647 →
      0 ≤ k2.digits_ → k2.digits_ ≤ 999 → 0 ≤ k2.region_ → k2.region_ * 1000 ≤ 2147483647 →
      (PlateHasherRegion 64 k1 = PlateHasherRegion 64 k2 ↔
        k1.digits_ = k2.digits_ ∧ k1.region_ = k2.region_)) ∧
    (∀ k1 k2 : VehiclePlate, ValidPlate k1 → ValidPlate k2 → k1.region_ ≠ k2.region_ →
      PlateHasherRegion 64 k1 ≠ PlateHasherRegion 64 k2)) :=
  ⟨by decide, PlateHasherRegion_injective 64 (by decide)⟩

/-- C18: for every key with digits in [0, 999]: when the region is in [0, 9] the string
has length 8 and its last two characters are the character 0 followed by the decimal digit
of the region; when the region is at least 10 the characters after position 5 are exactly
the decimal representation of the region, without padding. -/
theorem ToString_region_field (p : VehiclePlate) (hd0 : 0 ≤ p.digits_) (hd1 : p.digits_ ≤ 999) :
    (0 ≤ p.region_ → p.region_ ≤ 9 →
      p.ToString.length = 8 ∧ p.ToString.drop 6 = [chr '0', chr '0' + p.region_]) ∧
    (10 ≤ p.region_ →
      p.ToString.drop 6 =
        (Nat.digits 10 p.region_.toNat).reverse.map (fun d : Nat => chr '0' + (d : Int))) := by
  obtain ⟨c, d, r⟩ := p
  simp only at hd0 hd1
  lift d to ℕ using hd0
  have hd : d < 1000 := by omega
  constructor
  · intro h0 h9
    simp only at h0 h9
    lift r to ℕ using h0
    have hr : r < 10 := by omega
    have hdrop := ToString_drop c d (r : Int) hd
    rw [intChars_natCast, decimalDigits_of_lt r hr] at hdrop
    have hlen : (VehiclePlate.ToString ⟨c, (d : Int), (r : Int)⟩).length = 8 := by
      rw [ToString_of_natCast c d r hd, decimalDigits_of_lt r hr]
      rfl
    exact ⟨hlen, hdrop⟩
  · intro h10
    simp only at h10
    lift r to ℕ using (by omega)
    have hr : 10 ≤ r := by omega
    have hdrop := ToString_drop c d (r : Int) hd
    have hlen : 2 - (decimalDigits r).length = 0 := by
      rw [decimalDigits_length, Nat.log_of_one_lt_of_le (by decide) hr]
      omega
    rw [intChars_natCast, hlen] at hdrop
    rw [hdrop, Int.toNat_natCast, ← decimalDigits_eq_digits r (by omega)]
    rfl

/-- Witness for C18 at the key `XY042K` with region 150. -/
theorem ToString_region_field_witness :
    (0 : Int) ≤ (VehiclePlate.mk5 88 89 42 75 150).digits_ ∧
    (VehiclePlate.mk5 88 89 42 75 150).digits_ ≤ 999 ∧
    ((0 ≤ (VehiclePlate.mk5 88 89 42 75 150).region_ →
      (VehiclePlate.mk5 88 89 42 75 150).region_ ≤ 9 →
      (VehiclePlate.mk5 88 89 42 75 150).ToString.length = 8 ∧
        (VehiclePlate.mk5 88 89 42 75 150).ToString.drop 6 =
          [chr '0', chr '0' + (VehiclePlate.mk5 88 89 42 75 150).region_]) ∧
    (10 ≤ (VehiclePlate.mk5 88 89 42 75 150).region_ →
      (VehiclePlate.mk5 88 89 42 75 150).ToString.drop 6 =
        (Nat.digits 10 (VehiclePlate.mk5 88 89 42 75 150).region_.toNat).reverse.map
          (fun d : Nat => chr '0' + (d : Int)))) :=
  ⟨by decide, by decide, ToString_region_field _ (by decide) (by decide)⟩

/-- C19: for every valid key the fold of `PlateHasherAll` never wraps around:
`letters[0]*31^4 + letters[1]*31^3 + letters[2]*31^2 + digits*31 + region` is below `2^32`,
and the hash equals this integer for a 32-bit and for a 64-bit `size_t`. -/
theorem PlateHasherAll_no_wrap (p : VehiclePlate) (h : ValidPlate p) :
    p.letters_.c0 * 31 ^ 4 + p.letters_.c1 * 31 ^ 3 + p.letters_.c2 * 31 ^ 2 +
        p.digits_ * 31 + p.region_ < 2 ^ 32 ∧
    ((PlateHasherAll 32 p : Nat) : Int) =
      p.letters_.c0 * 31 ^ 4 + p.letters_.c1 * 31 ^ 3 + p.letters_.c2 * 31 ^ 2 +
        p.digits_ * 31 + p.region_ ∧
    ((PlateHasherAll 64 p : Nat) : Int) =
      p.letters_.c0 * 31 ^ 4 + p.letters_.c1 * 31 ^ 3 + p.letters_.c2 * 31 ^ 2 +
        p.digits_ * 31 + p.region_ := by
  obtain ⟨⟨c0, c1, c2⟩, d, r⟩ := p
  obtain ⟨h0, h1, h2, hd0, hd1, hr⟩ := h
  simp only at h0 h1 h2 hd0 hd1 hr
  have b0 := possible_chars_bounds c0 h0
  have b1 := possible_chars_bounds c1 h1
  have b2 := possible_chars_bounds c2 h2
  have br := possible_regions_bounds r hr
  lift c0 to ℕ using (by omega)
  lift c1 to ℕ using (by omega)
  lift c2 to ℕ using (by omega)
  lift d to ℕ using hd0
  lift r to ℕ using (by omega)
  have hfold : [c0, c1, c2, d, r].foldl (fun acc x => acc * 31 + x) 0 =
      c0 * 31 ^ 4 + c1 * 31 ^ 3 + c2 * 31 ^ 2 + d * 31 + r := by
    simp only [List.foldl]
    ring
  have hlt : c0 * 31 ^ 4 + c1 * 31 ^ 3 + c2 * 31 ^ 2 + d * 31 + r < 2 ^ 32 := by
    norm_num
    omega
  have hlt64 : c0 * 31 ^ 4 + c1 * 31 ^ 3 + c2 * 31 ^ 2 + d * 31 + r < 2 ^ 64 :=
    lt_trans hlt (by norm_num)
  dsimp only
  refine ⟨by exact_mod_cast hlt, ?_, ?_⟩
  · rw [PlateHasherAll_natCast, hfold, Nat.mod_eq_of_lt hlt]
    push_cast
    rfl
  · rw [PlateHasherAll_natCast, hfold, Nat.mod_eq_of_lt hlt64]
    push_cast
    rfl

/-- Witness for C19 at the valid key `YYY`, digits 999, region 777. -/
theorem PlateHasherAll_no_wrap_witness :
    ValidPlate (VehiclePlate.mk5 89 89 999 89 777) ∧
    ((VehiclePlate.mk5 89 89 999 89 777).letters_.c0 * 31 ^ 4 +
        (VehiclePlate.mk5 89 89 999 89 777).letters_.c1 * 31 ^ 3 +
        (VehiclePlate.mk5 89 89 999 89 777).letters_.c2 * 31 ^ 2 +
        (VehiclePlate.mk5 89 89 999 89 777).digits_ * 31 +
        (VehiclePlate.mk5 89 89 999 89 777).region_ < 2 ^ 32 ∧
    ((PlateHasherAll 32 (VehiclePlate.mk5 89 89 999 89 777) : Nat) : Int) =
      (VehiclePlate.mk5 89 89 999 89 777).letters_.c0 * 31 ^ 4 +
        (VehiclePlate.mk5 89 89 999 89 777).letters_.c1 * 31 ^ 3 +
        (VehiclePlate.mk5 89 89 999 89 777).letters_.c2 * 31 ^ 2 +
        (VehiclePlate.mk5 89 89 999 89 777).digits_ * 31 +
        (VehiclePlate.mk5 89 89 999 89 777).region_ ∧
    ((PlateHasherAll 64 (VehiclePlate.mk5 89 89 999 89 777) : Nat) : Int) =
      (VehiclePlate.mk5 89 89 999 89 777).letters_.c0 * 31 ^ 4 +
        (VehiclePlate.mk5 89 89 999 89 777).letters_.c1 * 31 ^ 3 +
        (VehiclePlate.mk5 89 89 999 89 777).letters_.c2 * 31 ^ 2 +
        (VehiclePlate.mk5 89 89 999 89 777).digits_ * 31 +
        (VehiclePlate.mk5 89 89 999 89 777).region_) :=
  ⟨by decide, PlateHasherAll_no_wrap _ (by decide)⟩

end PlateBench
